import Mathlib

/-!
Verification of the benchmark-comparison tool (`compare-benchmarks.py`).

Shallow embedding of the script into Lean 4:
* parsed JSON values become the inductive `Json`; the Python numeric tower
  (`bool` < `int` < `float`, with cross-kind `==`/`<`) is modelled by
  collapsing every number to an exact rational (CPython floats are binary64;
  they are modelled here as exact rationals, which is the only abstraction
  taken from the numeric code);
* Python dicts keyed by `(benchmark, sorted(params.items()))` tuples become
  association lists together with the equality `eqKey` that mirrors Python
  `==` on those tuples;
* fallible code paths (uncaught `TypeError`/`AttributeError`) are modelled
  with `Except Unit`, and the `sys.exit(2)` of the loader with a dedicated
  outcome constructor.
-/

/-- A parsed JSON value, i.e. the Python object produced by `json.load`.
JSON numbers parse to Python `int` or `float`; floats are modelled as exact
rationals.  Object fields model Python dicts produced by the JSON parser, so
their key lists are unique (duplicate keys are collapsed by `json.load`). -/
inductive Json where
  | null
  | bool (b : Bool)
  | int (n : ℤ)
  | float (q : ℚ)
  | str (s : String)
  | arr (elems : List Json)
  | obj (fields : List (String × Json))

/-- The hashable scalar Python values that can occur inside an identity key:
numbers (with `bool`/`int`/`float` collapsed, as Python `==`/`<`/`hash` do),
strings, and `None`.  Lists and dicts are unhashable, so the loader raises
before a key containing one is ever stored. -/
inductive SV where
  | vnum (q : ℚ)
  | vstr (s : String)
  | vnull
deriving DecidableEq

/-- Classify a value as a hashable scalar (`some`) or a container (`none`).
`isinstance(x, (int, float))` is true for Python bools, so `True`/`False`
collapse to `1`/`0`. -/
def toSV : Json → Option SV
  | .null => some .vnull
  | .bool b => some (.vnum (if b then 1 else 0))
  | .int n => some (.vnum (n : ℚ))
  | .float q => some (.vnum q)
  | .str s => some (.vstr s)
  | .arr _ => none
  | .obj _ => none

/-- Three-way comparison on rationals (Python `<` on numbers). -/
def cmp3 (a b : ℚ) : Ordering :=
  if a < b then .lt else if b < a then .gt else .eq

/-- Lexicographic three-way comparison of two code-point sequences. -/
def strCmp3 : List Char → List Char → Ordering
  | [], [] => .eq
  | [], _ :: _ => .lt
  | _ :: _, [] => .gt
  | a :: as, b :: bs =>
    if a.toNat < b.toNat then .lt
    else if b.toNat < a.toNat then .gt
    else strCmp3 as bs

/-- Three-way comparison on strings (Python `<` on `str` is lexicographic on
code points). -/
def cmpS (a b : String) : Ordering := strCmp3 a.toList b.toList

/-- Python rich comparison of two scalar values: numbers compare with
numbers, strings with strings, `None` is equal only to itself; every other
combination raises `TypeError` (`none`). -/
def svCmp : SV → SV → Option Ordering
  | .vnum a, .vnum b => some (cmp3 a b)
  | .vstr a, .vstr b => some (cmpS a b)
  | .vnull, .vnull => some .eq
  | _, _ => none

/-- Comparison of two Python values as used while ordering identity keys:
defined on hashable scalars via `svCmp`; containers never occur inside a
stored key (they are unhashable, the loader raises first), so they are left
in the undefined (`TypeError`) case. -/
def pyCmpScalar (a b : Json) : Option Ordering :=
  match toSV a, toSV b with
  | some x, some y => svCmp x y
  | _, _ => none

/-- An identity key: the Python tuple `(benchmark, tuple(sorted(params.items())))`. -/
abbrev BKey := Json × List (String × Json)

/-- Python comparison of one `(param name, param value)` pair: tuples compare
lexicographically, skipping `==`-equal components. -/
def cmpPair (p q : String × Json) : Option Ordering :=
  match cmpS p.1 q.1 with
  | .eq => pyCmpScalar p.2 q.2
  | o => some o

/-- Python comparison of two `sorted(params.items())` tuples: lexicographic,
a strict prefix is smaller. -/
def cmpParams : List (String × Json) → List (String × Json) → Option Ordering
  | [], [] => some .eq
  | [], _ :: _ => some .lt
  | _ :: _, [] => some .gt
  | p :: ps, q :: qs =>
    match cmpPair p q with
    | some .eq => cmpParams ps qs
    | r => r

/-- Python comparison of two identity keys (tuple comparison: benchmark
name first, then the sorted parameter tuple). -/
def cmpKey (a b : BKey) : Option Ordering :=
  match pyCmpScalar a.1 b.1 with
  | some .eq => cmpParams a.2 b.2
  | r => r

/-- Python `==` on identity keys, as used by dict lookup and set union.
Tuple `==` never raises; it agrees with `cmpKey` returning `eq`. -/
def eqKey (a b : BKey) : Bool :=
  cmpKey a b == some .eq

/-- Strict key order: `cmpKey` says `lt` (Python `k1 < k2`). -/
def keyLt (a b : BKey) : Prop := cmpKey a b = some Ordering.lt

/-- Non-strict key order used while reasoning about the sort. -/
def keyLe (a b : BKey) : Prop :=
  cmpKey a b = some Ordering.lt ∨ cmpKey a b = some Ordering.eq

/-- A key is hashable iff the name and every parameter value is a hashable
scalar; `result[key] = e` raises `TypeError` otherwise. -/
def keyHashable (k : BKey) : Bool :=
  (toSV k.1).isSome && k.2.all (fun p => (toSV p.2).isSome)

/-!
Exact rational arithmetic.  The Mathlib field operations on `ℚ` are
`@[irreducible]`, which blocks the kernel evaluation needed by concrete
witnesses, so the embedding uses its own `mkRat`-based operations and proves
them equal to the Mathlib ones.
-/

/-- Multiplication on `ℚ`. -/
def qMul (a b : ℚ) : ℚ := mkRat (a.num * b.num) (a.den * b.den)

/-- Inverse on `ℚ` (with `0⁻¹ = 0`, as in Mathlib). -/
def qInv (b : ℚ) : ℚ := mkRat (Int.sign b.num * b.den) b.num.natAbs

/-- Division on `ℚ`. -/
def qDiv (a b : ℚ) : ℚ := qMul a (qInv b)

/-- Subtraction on `ℚ`. -/
def qSub (a b : ℚ) : ℚ := mkRat (a.num * b.den - b.num * a.den) (a.den * b.den)

/-- Absolute value on `ℚ`. -/
def qAbs (a : ℚ) : ℚ := if a.num < 0 then mkRat (-a.num) a.den else a

theorem qMul_eq (a b : ℚ) : qMul a b = a * b := by
  conv_rhs => rw [← Rat.num_div_den a, ← Rat.num_div_den b]
  unfold qMul
  rw [Rat.mkRat_eq_div, div_mul_div_comm]
  push_cast
  rfl

theorem qInv_eq (b : ℚ) : qInv b = b⁻¹ := by
  have hb : b⁻¹ = (b.den : ℚ) / (b.num : ℚ) := by
    rw [show b⁻¹ = b.inv from rfl, Rat.inv_def, Rat.divInt_eq_div]
    norm_cast
  rw [hb]
  unfold qInv
  rw [Rat.mkRat_eq_div]
  rcases lt_trichotomy b.num 0 with h | h | h
  · rw [Int.sign_eq_neg_one_of_neg h]
    push_cast [Int.cast_natAbs]
    rw [abs_of_neg (show (b.num:ℚ) < 0 by exact_mod_cast h)]
    rw [show ((-1 : ℚ) * b.den) = -(b.den:ℚ) by ring, neg_div_neg_eq]
  · simp [h]
  · rw [Int.sign_eq_one_of_pos h]
    push_cast [Int.cast_natAbs]
    rw [abs_of_pos (show (0:ℚ) < b.num by exact_mod_cast h)]
    ring_nf

theorem qDiv_eq (a b : ℚ) : qDiv a b = a / b := by
  rw [qDiv, qMul_eq, qInv_eq, div_eq_mul_inv]

theorem qSub_eq (a b : ℚ) : qSub a b = a - b := by
  conv_rhs => rw [← Rat.num_div_den a, ← Rat.num_div_den b]
  unfold qSub
  rw [Rat.mkRat_eq_div, div_sub_div _ _ (by positivity) (by positivity)]
  push_cast
  ring_nf

theorem qAbs_eq (a : ℚ) : qAbs a = |a| := by
  unfold qAbs
  split
  · next h =>
    rw [abs_of_neg (Rat.num_neg.mp h), ← Rat.neg_mkRat, Rat.mkRat_self]
  · next h =>
    rw [abs_of_nonneg (Rat.num_nonneg.mp (le_of_not_lt h))]

/-- Floor `⌊q⌋` as integer arithmetic on the (reduced) numerator and denominator. -/
def ratFloor (q : ℚ) : ℤ := q.num.fdiv q.den

/-- Round a rational to the nearest integer, ties to even: the rounding
CPython `format` applies to the (binary) float value.  Here `r2` is twice the
numerator of the fractional part over denominator `q.den`. -/
def rhe (q : ℚ) : ℤ :=
  let f := ratFloor q
  let r2 := 2 * (q.num - f * q.den)
  if r2 < (q.den : ℤ) then f
  else if (q.den : ℤ) < r2 then f + 1
  else if f % 2 = 0 then f else f + 1

/-!
Decimal formatting: the embedding of the CPython format specs `.6g`, `.3f`
and `+.1f` used by the script.  Python formats the binary64 value; scores
are modelled as exact rationals, so rounding is exact rational rounding
half-to-even.
-/

/-- Left-pad a digit string with zeros to the given width. -/
def padZeros (width : ℕ) (s : String) : String :=
  String.mk (List.replicate (width - s.length) '0') ++ s

/-- Drop trailing `0` characters (used when `g`-formatting strips zeros). -/
def dropTrailingZeros (s : String) : String :=
  String.mk ((s.toList.reverse.dropWhile (fun c => c == '0')).reverse)

/-- Power `10 ^ e` as a rational, for integer `e`. -/
def pow10Z : ℤ → ℚ
  | .ofNat n => mkRat (10 ^ n) 1
  | .negSucc n => mkRat 1 (10 ^ (n + 1))

/-- For `q > 0`, the decimal exponent: the `e` with `10 ^ e ≤ q < 10 ^ (e+1)`.
A digit-count guess is corrected by direct comparison. -/
def decExp (q : ℚ) : ℤ :=
  let g : ℤ := ((Nat.toDigits 10 q.num.natAbs).length : ℤ) -
    ((Nat.toDigits 10 q.den).length : ℤ)
  if q < pow10Z g then g - 1 else if pow10Z (g + 1) ≤ q then g + 1 else g

/-- Fixed-point rendering of `|q|` with `prec` digits after the point
(the digits of CPython `format(q, ".<prec>f")` without the sign). -/
def fmtFixedAbs (prec : ℕ) (q : ℚ) : String :=
  let n := (rhe (qMul (qAbs q) (pow10Z prec))).toNat
  let ip := n / 10 ^ prec
  let fp := n % 10 ^ prec
  if prec = 0 then Nat.repr ip
  else Nat.repr ip ++ "." ++ padZeros prec (Nat.repr fp)

/-- CPython `format(q, ".<prec>f")`: sign only when the value is negative
(including a negative value that rounds to `-0.0`). -/
def fmtFixed (prec : ℕ) (q : ℚ) : String :=
  (if q < 0 then "-" else "") ++ fmtFixedAbs prec q

/-- CPython `format(q, "+.<prec>f")`: an explicit sign in every case. -/
def fmtFixedSigned (prec : ℕ) (q : ℚ) : String :=
  (if q < 0 then "-" else "+") ++ fmtFixedAbs prec q

/-- CPython `format(q, ".6g")`: 6 significant digits, trailing zeros
stripped, scientific notation when the decimal exponent leaves `[-4, 6)`. -/
def fmt6g (q : ℚ) : String :=
  if q = 0 then "0"
  else
    let sign := if q < 0 then "-" else ""
    let a := qAbs q
    let e0 := decExp a
    let m0 := rhe (qMul a (pow10Z (5 - e0)))
    let m := if m0 = 1000000 then (100000 : ℤ) else m0
    let e := if m0 = 1000000 then e0 + 1 else e0
    if -4 ≤ e ∧ e < 6 then
      let digitsAfter := (5 - e).toNat
      let ip := m.toNat / 10 ^ digitsAfter
      let fp := m.toNat % 10 ^ digitsAfter
      let fracS := dropTrailingZeros (padZeros digitsAfter (Nat.repr fp))
      sign ++ Nat.repr ip ++ (if fracS = "" then "" else "." ++ fracS)
    else
      let rest := dropTrailingZeros (padZeros 5 (Nat.repr (m.toNat % 100000)))
      let mant := Nat.repr (m.toNat / 100000) ++ (if rest = "" then "" else "." ++ rest)
      let esign := if e < 0 then "-" else "+"
      let eabs := e.natAbs
      let eS := if eabs < 10 then "0" ++ Nat.repr eabs else Nat.repr eabs
      sign ++ mant ++ "e" ++ esign ++ eS

/-!
Python string conversion (`str`) for the values the script interpolates
into the Markdown table.
-/

/-- Python `str()` of a float.  CPython prints the shortest decimal string
that round-trips through binary64; scores are modelled as exact rationals,
so this is modelled as the exact decimal expansion (with at least one digit
after the point) when the rational is a decimal fraction with at most 40
fractional digits, and as a `num/den` fallback otherwise.  The scientific
notation CPython uses for very large/small magnitudes is not modelled; no
theorem below depends on this rendering. -/
def pyStrFloat (q : ℚ) : String :=
  let sign := if q.num < 0 then "-" else ""
  match (List.range 41).find? (fun k => 10 ^ k % q.den == 0) with
  | some k =>
    let scaled := q.num.natAbs * 10 ^ k / q.den
    let ip := scaled / 10 ^ k
    let fp := scaled % 10 ^ k
    let fracS := dropTrailingZeros (padZeros k (Nat.repr fp))
    sign ++ Nat.repr ip ++ "." ++ (if fracS = "" then "0" else fracS)
  | none => sign ++ Nat.repr q.num.natAbs ++ "/" ++ Nat.repr q.den

/-- Python `repr()`.  String escaping inside `repr` of a string is not
modelled (benchmark data contains no quotes); everything else follows
CPython: `None`, `True`/`False`, integers, floats, quoted strings, and
recursively rendered lists and dicts. -/
def pyRepr : Json → String
  | .null => "None"
  | .bool b => if b then "True" else "False"
  | .int n => Int.repr n
  | .float q => pyStrFloat q
  | .str s => "\x27" ++ s ++ "\x27"
  | .arr xs => "[" ++ String.intercalate ", " (xs.attach.map (fun x => pyRepr x.1)) ++ "]"
  | .obj kvs => "\x7b" ++
      String.intercalate ", " (kvs.attach.map
        (fun p => "\x27" ++ p.1.1 ++ "\x27: " ++ pyRepr p.1.2)) ++ "\x7d"
decreasing_by
  all_goals simp_wf
  · have := List.sizeOf_lt_of_mem x.2
    omega
  · have h1 := List.sizeOf_lt_of_mem p.2
    have h2 : sizeOf p.1.2 < sizeOf p.1 := by
      cases p.1
      simp
    omega

/-- Python `str()`: identical to `repr()` except on a top-level string. -/
def pyStr (j : Json) : String :=
  match j with
  | .str s => s
  | _ => pyRepr j

/-- Python `a or b` on strings: `a` when non-empty, else `b`. -/
def pyOr (a b : String) : String := if a == "" then b else a

/-- The "no data" marker (`EM_DASH` in the script). -/
def EM_DASH : String := "—"

/-!
The loader (`load`, lines 29–54 of the script).
-/

/-- A parsed benchmark entry: the Python dict for one element of the JMH
JSON array (key list unique, as produced by `json.load`). -/
abbrev Entry := List (String × Json)

/-- Python `d.get(key, dflt)` on a parsed JSON object. -/
def objGetD (e : Entry) (k : String) (dflt : Json) : Json :=
  match e.find? (fun p => p.1 == k) with
  | some p => p.2
  | none => dflt

/-- The identity-keyed mapping built by `load`: a Python dict modelled as an
association list in insertion order. -/
abbrev BDict := List (BKey × Entry)

/-- The syntactic keys of the mapping (`d.keys()`, in insertion order). -/
def dictKeys (d : BDict) : List BKey := d.map Prod.fst

/-- Python `key in d`: membership up to Python `==`. -/
def dictMem (d : BDict) (k : BKey) : Bool :=
  d.any (fun p => eqKey p.1 k)

/-- Python `d.get(key)`: lookup up to Python `==`. -/
def dictGet (d : BDict) (k : BKey) : Option Entry :=
  (d.find? (fun p => eqKey p.1 k)).map Prod.snd

/-- Python `d[key] = v`: replace the value at an `==`-equal key (the stored
key object is retained), else append. -/
def dictInsert (d : BDict) (k : BKey) (v : Entry) : BDict :=
  if d.any (fun p => eqKey p.1 k) then
    d.map (fun p => if eqKey p.1 k then (p.1, v) else p)
  else d ++ [(k, v)]

/-- Insert one parameter pair into an ascending run (by parameter name).
Parameter names within one record are dict keys, hence pairwise distinct,
so `sorted(params.items())` never compares two parameter values. -/
def paramInsert (x : String × Json) : List (String × Json) → List (String × Json)
  | [] => [x]
  | y :: ys => if cmpS x.1 y.1 = .lt then x :: y :: ys else y :: paramInsert x ys

/-- Python `sorted(params.items())`. -/
def sortParams : List (String × Json) → List (String × Json)
  | [] => []
  | x :: xs => paramInsert x (sortParams xs)

/-- Result of running the loader on one input source. -/
inductive LoadOutcome where
  | ok (d : BDict)
  | exit2
  | uncaught

/-- True exactly for a successfully loaded empty mapping. -/
def LoadOutcome.isOkEmpty : LoadOutcome → Bool
  | .ok d => d.isEmpty
  | _ => false

/-- True exactly for the fatal-parse outcome (`sys.exit(2)`). -/
def LoadOutcome.isExit2 : LoadOutcome → Bool
  | .exit2 => true
  | _ => false

/-- The loop body of `load` (lines 45–53): skip non-dict elements, default
`benchmark` to `""`, coerce a missing/falsy/non-dict `params` to `{}`, build
the key, and insert last-write-wins.  Inserting a key that contains an
unhashable value (a list or dict) raises `TypeError`, which nothing
catches. -/
def buildDict : List Json → BDict → LoadOutcome
  | [], d => .ok d
  | j :: rest, d =>
    match j with
    | .obj e =>
      let bench := objGetD e "benchmark" (Json.str "")
      let params := match objGetD e "params" Json.null with
        | .obj o => o
        | _ => []
      let key : BKey := (bench, sortParams params)
      if keyHashable key then buildDict rest (dictInsert d key e)
      else .uncaught
    | _ => buildDict rest d

/-- What reading and parsing one input source yielded.  File access is the
external boundary of the script; its four relevant outcomes are: the file is
absent (`FileNotFoundError`), the file exists but reading raises some other
`OSError`/decode error, the bytes are not valid JSON (`JSONDecodeError`),
or a value was parsed. -/
inductive FileInput where
  | absent
  | unreadable
  | malformed
  | parsed (j : Json)

/-- Function `load` (lines 29–54): only `FileNotFoundError` is recovered as an empty
mapping; a `JSONDecodeError` exits with status 2; any other read error
propagates as an uncaught exception; a parsed non-list value yields an
empty mapping (with a warning on the diagnostic channel). -/
def load : FileInput → LoadOutcome
  | .absent => .ok []
  | .unreadable => .uncaught
  | .malformed => .exit2
  | .parsed (.arr es) => buildDict es []
  | .parsed _ => .ok []

/-!
Score extraction (`essential_num_types`, `_score_and_unit`,
`_numeric_score`, lines 57–76).
-/

/-- The test `isinstance(x, essential_num_types)` together with `float(x)`:
`essential_num_types = (int, float)` and Python `bool` is a subclass of
`int`, so booleans pass the test and convert to `1.0`/`0.0`. -/
def ratOf : Json → Option ℚ
  | .bool b => some (if b then 1 else 0)
  | .int n => some (mkRat n 1)
  | .float q => some q
  | _ => none

/-- Function `_score_and_unit` (lines 60–68): the displayed score string and the
displayed unit string of one optional record.  A present `primaryMetric`
that is not a dict has no `.get`, so the call raises `AttributeError`
(`Except.error`), which nothing catches. -/
def scoreAndUnit (e : Option Entry) : Except Unit (String × String) :=
  match e with
  | none => .ok (EM_DASH, "")
  | some d =>
    if d.isEmpty then .ok (EM_DASH, "")
    else
      match objGetD d "primaryMetric" (Json.obj []) with
      | .obj mo =>
        let score := objGetD mo "score" Json.null
        let unit := objGetD mo "scoreUnit" (Json.str "")
        .ok (match ratOf score with
          | some q => (fmt6g q, pyStr unit)
          | none =>
            ((match score with | Json.null => EM_DASH | _ => pyStr score), pyStr unit))
      | _ => .error ()

/-- Function `_numeric_score` (lines 71–76): the numeric score of one optional
record, `none` when absent or non-numeric; raises like `_score_and_unit`
when `primaryMetric` is present but not a dict. -/
def numericScore (e : Option Entry) : Except Unit (Option ℚ) :=
  match e with
  | none => .ok none
  | some d =>
    if d.isEmpty then .ok none
    else
      match objGetD d "primaryMetric" (Json.obj []) with
      | .obj mo => .ok (ratOf (objGetD mo "score" Json.null))
      | _ => .error ()

/-!
The comparison loop (`compare_to_markdown`, lines 79–117).
-/

/-- The Δ column (lines 98–103 and 106): `"n/a"` unless both scores are
numeric and the baseline is nonzero, else the ratio to 3 decimal places
with the signed percentage change to 1 decimal place. -/
def deltaStr (bs cs : Option ℚ) : String :=
  match bs, cs with
  | some bq, some cq =>
    if bq = 0 then "n/a"
    else
      let delta := qDiv cq bq
      fmtFixed 3 delta ++ "× (" ++ fmtFixedSigned 1 (qMul (qSub delta 1) 100) ++ "%)"
  | _, _ => "n/a"

/-- The Unit column (lines 104 and 107).  When both scores are numeric the
`primaryMetric["scoreUnit"]` of the current record is used whenever the field is
present (even an empty one), with `bunit or cunit` as the `.get` default;
in every other case the column is `cunit or bunit or ""`.  A non-dict
`primaryMetric` on the current record would raise here as well. -/
def unitStr (c : Option Entry) (bs cs : Option ℚ) (bunit cunit : String) :
    Except Unit String :=
  match bs, cs with
  | some _, some _ =>
    match c with
    | some d =>
      match objGetD d "primaryMetric" (Json.obj []) with
      | .obj mo =>
        match mo.find? (fun p => p.1 == "scoreUnit") with
        | some p => .ok (pyStr p.2)
        | none => .ok (pyOr bunit cunit)
      | _ => .error ()
    | none => .ok (pyOr bunit cunit)
  | _, _ => .ok (pyOr cunit (pyOr bunit ""))

/-- The rendered parameter column (line 109): `k=v` pairs comma-joined, or
the "no data" marker when the key has no parameters. -/
def paramsStr (ps : List (String × Json)) : String :=
  if ps.isEmpty then EM_DASH
  else String.intercalate ", " (ps.map (fun p => p.1 ++ "=" ++ pyStr p.2))

/-- One data row (loop body, lines 88–110), in the evaluation order of the
script; `dictGet base k` is the baseline record `b` of the row, `dictGet cur k`
its current record `c`. -/
def renderRow (base cur : BDict) (k : BKey) : Except Unit String := do
  let bsu ← scoreAndUnit (dictGet base k)
  let csu ← scoreAndUnit (dictGet cur k)
  let bs ← numericScore (dictGet base k)
  let cs ← numericScore (dictGet cur k)
  let unit ← unitStr (dictGet cur k) bs cs bsu.2 csu.2
  pure ("| `" ++ pyStr k.1 ++ "` | " ++ paramsStr k.2 ++ " | " ++ bsu.1 ++ " | " ++
    csu.1 ++ " | " ++ deltaStr bs cs ++ " | " ++ unit ++ " |")

/-- Insert a key into an already sorted run, comparing with Python `<`
exactly as an ascending stable sort does; an undefined comparison is the
uncaught `TypeError` that `sorted` raises. -/
def insertE (x : BKey) : List BKey → Except Unit (List BKey)
  | [] => .ok [x]
  | y :: ys =>
    match cmpKey x y with
    | none => .error ()
    | some .lt => .ok (x :: y :: ys)
    | some _ => do
      let zs ← insertE x ys
      pure (y :: zs)

/-- Python `sorted(...)` on identity keys, modelled as an insertion sort with the
partial Python comparison (the Python Timsort is observationally the same:
stable, `<`-driven, and raising on the incomparable pairs it meets). -/
def sortE : List BKey → Except Unit (List BKey)
  | [] => .ok []
  | x :: xs => do
    let ys ← sortE xs
    insertE x ys

/-- The union `set(base.keys()) | set(cur.keys())` as the list of surviving key
objects: all keys of `base` (sets keep the first-inserted representative
of an `==`-class) plus the keys of `cur` not `==`-present in `base`. -/
def unionKeys (base cur : BDict) : List BKey :=
  dictKeys base ++ (dictKeys cur).filter (fun k => !(dictKeys base).any (fun b => eqKey b k))

/-- The sorted row-key sequence of the report (line 80). -/
def reportKeys (base cur : BDict) : Except Unit (List BKey) :=
  sortE (unionKeys base cur)

/-- The data rows of the table: the loop of lines 88–110, one rendered row
per sorted key, stopping at the first uncaught exception. -/
def renderRows (base cur : BDict) : List BKey → Except Unit (List String)
  | [] => .ok []
  | k :: ks => do
    let row ← renderRow base cur k
    let rest ← renderRows base cur ks
    pure (row :: rest)

/-- Function `compare_to_markdown`, with the enumeration order of the key-set union
made explicit (Python `set` iteration order is what varies across runs;
`keys = sorted(set(base.keys()) | set(cur.keys()))` consumes it). -/
def compareWithEnum (enum : List BKey) (base cur : BDict) (title : String)
    (note : Option String) : Except Unit String := do
  let ks ← sortE enum
  let rows ← renderRows base cur ks
  let header := ["### " ++ title, "",
    "| Benchmark | Params | Baseline | PR | Δ (PR/Base) | Unit |",
    "|---|---|---:|---:|---:|---|"]
  let tail := match note with
    | some n => if n == "" then [] else [n, ""]
    | none => []
  pure (String.intercalate "\n" (header ++ rows ++ [""] ++ tail))

/-- Function `compare_to_markdown` (lines 79–117) on the canonical enumeration. -/
def compare_to_markdown (base cur : BDict) (title : String)
    (note : Option String) : Except Unit String :=
  compareWithEnum (unionKeys base cur) base cur title note

/-!
The driver (`main`, lines 133–146).
-/

/-- Result of the driver: the report with exit status 0, exit status 1 for
no comparable data, exit status 2 for a malformed input, or an uncaught
exception. -/
inductive MainOutcome where
  | exit0 (report : String)
  | exit1
  | exit2
  | uncaught

/-- True exactly for a successful run. -/
def MainOutcome.isExit0 : MainOutcome → Bool
  | .exit0 _ => true
  | _ => false

/-- Lines 139–146: after both loads succeeded.  `not base and not cur`
tests emptiness of the two dicts. -/
def driverAfterLoad (base cur : BDict) (title : String) (note : Option String) :
    MainOutcome :=
  if base.isEmpty && cur.isEmpty then .exit1
  else
    match compare_to_markdown base cur title note with
    | .ok md => .exit0 md
    | .error _ => .uncaught

/-- Function `main` (lines 133–146): load both sources, then run the comparison. -/
def mainRun (fb fc : FileInput) (title : String) (note : Option String) :
    MainOutcome :=
  match load fb with
  | .exit2 => .exit2
  | .uncaught => .uncaught
  | .ok base =>
    match load fc with
    | .exit2 => .exit2
    | .uncaught => .uncaught
    | .ok cur => driverAfterLoad base cur title note

/-- Modelled from the spec (§4.2, unit resolution): prefer the unit of
current if current exists and declares one; else the unit of baseline; else
the empty string.  Used only to compare the uniform rule of the spec
against the branch-dependent rule of the code. -/
def specUnitRule (cExists : Bool) (cunit bunit : String) : String :=
  if cExists && !(cunit == "") then cunit
  else if !(bunit == "") then bunit
  else ""

/-!
Laws of the partial Python comparison.  `pyCmpScalar` is swap-symmetric,
its `eq` results coincide with a shared scalar classification, and its `lt`
results are transitive — globally, with no side conditions, because every
case that Python leaves undefined is `none` in both directions.
-/

theorem strCmp3_eq_iff (xs : List Char) : ∀ ys, strCmp3 xs ys = .eq ↔ xs = ys := by
  induction xs with
  | nil => intro ys; cases ys <;> simp [strCmp3]
  | cons x xs ih =>
    intro ys
    cases ys with
    | nil => simp [strCmp3]
    | cons y ys =>
      simp only [strCmp3]
      rcases Nat.lt_trichotomy x.toNat y.toNat with h | h | h
      · rw [if_pos h]
        constructor
        · intro hc; exact Ordering.noConfusion hc
        · intro hc
          injection hc with h1 h2
          subst h1
          exact absurd h (Nat.lt_irrefl _)
      · have hxy : x = y := Char.ext (UInt32.ext h)
        subst hxy
        rw [if_neg (Nat.lt_irrefl _), if_neg (Nat.lt_irrefl _)]
        simp [ih]
      · rw [if_neg (Nat.lt_asymm h), if_pos h]
        constructor
        · intro hc; exact Ordering.noConfusion hc
        · intro hc
          injection hc with h1 h2
          subst h1
          exact absurd h (Nat.lt_irrefl _)

theorem strCmp3_swap (xs : List Char) : ∀ ys, strCmp3 ys xs = (strCmp3 xs ys).swap := by
  induction xs with
  | nil => intro ys; cases ys <;> rfl
  | cons x xs ih =>
    intro ys
    cases ys with
    | nil => rfl
    | cons y ys =>
      simp only [strCmp3]
      rcases Nat.lt_trichotomy x.toNat y.toNat with h | h | h
      · simp [h, Nat.lt_asymm h, Ordering.swap]
      · simpa [h, lt_irrefl] using ih ys
      · simp [h, Nat.lt_asymm h, Ordering.swap]

theorem strCmp3_lt_trans (xs : List Char) :
    ∀ ys zs, strCmp3 xs ys = .lt → strCmp3 ys zs = .lt → strCmp3 xs zs = .lt := by
  induction xs with
  | nil =>
    intro ys zs h1 h2
    cases ys with
    | nil => exact absurd h1 (by simp [strCmp3])
    | cons y ys =>
      cases zs with
      | nil => exact absurd h2 (by simp [strCmp3])
      | cons z zs => simp [strCmp3]
  | cons x xs ih =>
    intro ys zs h1 h2
    cases ys with
    | nil => exact absurd h1 (by simp [strCmp3])
    | cons y ys =>
      cases zs with
      | nil => exact absurd h2 (by simp [strCmp3])
      | cons z zs =>
        simp only [strCmp3] at h1 h2 ⊢
        rcases Nat.lt_trichotomy x.toNat y.toNat with hxy | hxy | hxy
        · rcases Nat.lt_trichotomy y.toNat z.toNat with hyz | hyz | hyz
          · simp [Nat.lt_trans hxy hyz]
          · simp [show x.toNat < z.toNat by omega]
          · simp [Nat.lt_asymm hyz, hyz] at h2
        · rcases Nat.lt_trichotomy y.toNat z.toNat with hyz | hyz | hyz
          · simp [show x.toNat < z.toNat by omega]
          · have h1x : strCmp3 xs ys = .lt := by simpa [hxy, lt_irrefl] using h1
            have h2x : strCmp3 ys zs = .lt := by simpa [hyz, lt_irrefl] using h2
            simp [show ¬ x.toNat < z.toNat by omega, show ¬ z.toNat < x.toNat by omega,
              ih ys zs h1x h2x]
          · simp [Nat.lt_asymm hyz, hyz] at h2
        · simp [Nat.lt_asymm hxy, hxy] at h1

theorem cmpS_eq_iff (a b : String) : cmpS a b = .eq ↔ a = b := by
  unfold cmpS
  rw [strCmp3_eq_iff]
  constructor
  · intro h
    cases a
    cases b
    exact congrArg String.mk (by simpa using h)
  · intro h
    rw [h]

theorem cmpS_swap (a b : String) : cmpS b a = (cmpS a b).swap :=
  strCmp3_swap _ _

theorem cmpS_lt_trans (a b c : String) :
    cmpS a b = .lt → cmpS b c = .lt → cmpS a c = .lt :=
  strCmp3_lt_trans _ _ _

theorem cmp3_lt_iff (a b : ℚ) : cmp3 a b = .lt ↔ a < b := by
  unfold cmp3
  rcases lt_trichotomy a b with h | h | h
  · simp [h]
  · simp [h, lt_irrefl]
  · simp [h, lt_asymm h]

theorem cmp3_eq_iff (a b : ℚ) : cmp3 a b = .eq ↔ a = b := by
  unfold cmp3
  rcases lt_trichotomy a b with h | h | h
  · simp [h, h.ne]
  · simp [h, lt_irrefl]
  · simp [h, lt_asymm h, h.ne.symm]

theorem cmp3_swap (a b : ℚ) : cmp3 b a = (cmp3 a b).swap := by
  unfold cmp3
  rcases lt_trichotomy a b with h | h | h
  · simp [h, lt_asymm h, Ordering.swap]
  · simp [h, lt_irrefl, Ordering.swap]
  · simp [h, lt_asymm h, Ordering.swap]

theorem svCmp_eq_iff (x y : SV) : svCmp x y = some .eq ↔ x = y := by
  cases x <;> cases y <;> simp [svCmp, cmp3_eq_iff, cmpS_eq_iff]

theorem svCmp_swap (x y : SV) : svCmp y x = (svCmp x y).map Ordering.swap := by
  cases x <;> cases y <;> simp only [svCmp, Option.map] <;> try rfl
  · rw [cmp3_swap]
  · rw [cmpS_swap]

theorem svCmp_lt_trans (x y z : SV) :
    svCmp x y = some .lt → svCmp y z = some .lt → svCmp x z = some .lt := by
  cases x <;> cases y <;> cases z <;> simp [svCmp]
  · rw [cmp3_lt_iff, cmp3_lt_iff, cmp3_lt_iff]
    exact lt_trans
  · exact cmpS_lt_trans _ _ _

theorem scmp_swap (a b : Json) :
    pyCmpScalar b a = (pyCmpScalar a b).map Ordering.swap := by
  unfold pyCmpScalar
  cases ha : toSV a <;> cases hb : toSV b <;> simp only
  · rfl
  · rfl
  · rfl
  · exact svCmp_swap _ _

theorem scmp_eq_iff (a b : Json) :
    pyCmpScalar a b = some .eq ↔ ∃ x, toSV a = some x ∧ toSV b = some x := by
  unfold pyCmpScalar
  cases ha : toSV a <;> cases hb : toSV b <;> simp only
  · simp [ha, hb]
  · simp [ha, hb]
  · simp [ha, hb]
  · rw [svCmp_eq_iff]
    simp only [ha, hb, Option.some.injEq]
    constructor
    · intro h
      exact ⟨_, h.symm ▸ rfl, rfl⟩
    · rintro ⟨x, h1, h2⟩
      rw [h1, h2]

theorem scmp_eq_congr (a b c : Json) (h : pyCmpScalar a b = some .eq) :
    pyCmpScalar a c = pyCmpScalar b c := by
  rcases (scmp_eq_iff a b).mp h with ⟨x, hx, hy⟩
  simp [pyCmpScalar, hx, hy]

theorem scmp_lt_trans (a b c : Json) :
    pyCmpScalar a b = some .lt → pyCmpScalar b c = some .lt →
    pyCmpScalar a c = some .lt := by
  unfold pyCmpScalar
  cases ha : toSV a <;> cases hb : toSV b <;> cases hc : toSV c <;> simp only
  all_goals intro h1 h2
  all_goals first
    | exact Option.noConfusion h1
    | exact Option.noConfusion h2
    | exact svCmp_lt_trans _ _ _ h1 h2

theorem scmp_refl (a : Json) (h : (toSV a).isSome) : pyCmpScalar a a = some .eq := by
  rcases Option.isSome_iff_exists.mp h with ⟨x, hx⟩
  exact (scmp_eq_iff a a).mpr ⟨x, hx, hx⟩

theorem scmp_eq_congr_r (a b c : Json) (h : pyCmpScalar b c = some .eq) :
    pyCmpScalar a b = pyCmpScalar a c := by
  rcases (scmp_eq_iff b c).mp h with ⟨x, hx, hy⟩
  simp [pyCmpScalar, hx, hy]

theorem cmpPair_swap (p q : String × Json) :
    cmpPair q p = (cmpPair p q).map Ordering.swap := by
  unfold cmpPair
  rw [cmpS_swap p.1 q.1]
  cases h : cmpS p.1 q.1
  · rfl
  · exact scmp_swap _ _
  · rfl

theorem cmpPair_eq_iff (p q : String × Json) :
    cmpPair p q = some .eq ↔ cmpS p.1 q.1 = .eq ∧ pyCmpScalar p.2 q.2 = some .eq := by
  unfold cmpPair
  cases h : cmpS p.1 q.1 <;> simp [h]

theorem cmpPair_eq_congr (p q r : String × Json) (h : cmpPair p q = some .eq) :
    cmpPair p r = cmpPair q r := by
  obtain ⟨h1, h2⟩ := (cmpPair_eq_iff p q).mp h
  have hpq : p.1 = q.1 := (cmpS_eq_iff _ _).mp h1
  unfold cmpPair
  rw [hpq]
  cases cmpS q.1 r.1
  · rfl
  · exact scmp_eq_congr _ _ _ h2
  · rfl

theorem cmpPair_eq_congr_r (p q r : String × Json) (h : cmpPair q r = some .eq) :
    cmpPair p q = cmpPair p r := by
  obtain ⟨h1, h2⟩ := (cmpPair_eq_iff q r).mp h
  have hqr : q.1 = r.1 := (cmpS_eq_iff _ _).mp h1
  unfold cmpPair
  rw [hqr]
  cases cmpS p.1 r.1
  · rfl
  · exact scmp_eq_congr_r _ _ _ h2
  · rfl

theorem cmpPair_lt_trans (p q r : String × Json) :
    cmpPair p q = some .lt → cmpPair q r = some .lt → cmpPair p r = some .lt := by
  intro h1 h2
  unfold cmpPair at h1 h2 ⊢
  cases hpq : cmpS p.1 q.1 <;> rw [hpq] at h1 <;>
    cases hqr : cmpS q.1 r.1 <;> rw [hqr] at h2
  · rw [cmpS_lt_trans _ _ _ hpq hqr]
  · rw [show cmpS p.1 r.1 = .lt from (cmpS_eq_iff _ _).mp hqr ▸ hpq]
  · simp at h2
  · rw [show cmpS p.1 r.1 = .lt from ((cmpS_eq_iff _ _).mp hpq).symm ▸ hqr]
  · have hpr : cmpS p.1 r.1 = .eq := by
      rw [(cmpS_eq_iff _ _).mp hpq, hqr]
    rw [hpr]
    exact scmp_lt_trans _ _ _ h1 h2
  · simp at h2
  · simp at h1
  · simp at h1
  · simp at h1

theorem cmpParams_swap (xs : List (String × Json)) :
    ∀ ys, cmpParams ys xs = (cmpParams xs ys).map Ordering.swap := by
  induction xs with
  | nil => intro ys; cases ys <;> rfl
  | cons p ps ih =>
    intro ys
    cases ys with
    | nil => rfl
    | cons q qs =>
      simp only [cmpParams]
      rw [cmpPair_swap p q]
      cases h : cmpPair p q with
      | none => rfl
      | some o =>
        cases o
        · rfl
        · exact ih qs
        · rfl

theorem cmpParams_eq_congr (xs : List (String × Json)) :
    ∀ ys zs, cmpParams xs ys = some .eq → cmpParams xs zs = cmpParams ys zs := by
  induction xs with
  | nil =>
    intro ys zs h
    cases ys with
    | nil => rfl
    | cons q qs => exact absurd h (by simp [cmpParams])
  | cons p ps ih =>
    intro ys zs h
    cases ys with
    | nil => exact absurd h (by simp [cmpParams])
    | cons q qs =>
      simp only [cmpParams] at h
      cases hpq : cmpPair p q <;> rw [hpq] at h
      · exact Option.noConfusion h
      · next o =>
        cases o
        · simp at h
        · cases zs with
          | nil => rfl
          | cons r rs =>
            simp only [cmpParams]
            rw [cmpPair_eq_congr p q r hpq]
            cases cmpPair q r with
            | none => rfl
            | some o2 =>
              cases o2
              · rfl
              · exact ih qs rs h
              · rfl
        · simp at h

theorem cmpParams_eq_congr_r (ys : List (String × Json)) :
    ∀ xs zs, cmpParams ys zs = some .eq → cmpParams xs ys = cmpParams xs zs := by
  induction ys with
  | nil =>
    intro xs zs h
    cases zs with
    | nil => rfl
    | cons r rs => exact absurd h (by simp [cmpParams])
  | cons q qs ih =>
    intro xs zs h
    cases zs with
    | nil => exact absurd h (by simp [cmpParams])
    | cons r rs =>
      simp only [cmpParams] at h
      cases hqr : cmpPair q r <;> rw [hqr] at h
      · exact Option.noConfusion h
      · next o =>
        cases o
        · simp at h
        · cases xs with
          | nil => rfl
          | cons p ps =>
            simp only [cmpParams]
            rw [cmpPair_eq_congr_r p q r hqr]
            cases cmpPair p r with
            | none => rfl
            | some o2 =>
              cases o2
              · rfl
              · exact ih ps rs h
              · rfl
        · simp at h

theorem cmpParams_lt_trans (xs : List (String × Json)) :
    ∀ ys zs, cmpParams xs ys = some .lt → cmpParams ys zs = some .lt →
      cmpParams xs zs = some .lt := by
  induction xs with
  | nil =>
    intro ys zs h1 h2
    cases ys with
    | nil => exact absurd h1 (by simp [cmpParams])
    | cons q qs =>
      cases zs with
      | nil => exact absurd h2 (by simp [cmpParams])
      | cons r rs => simp [cmpParams]
  | cons p ps ih =>
    intro ys zs h1 h2
    cases ys with
    | nil => exact absurd h1 (by simp [cmpParams])
    | cons q qs =>
      cases zs with
      | nil => exact absurd h2 (by simp [cmpParams])
      | cons r rs =>
        simp only [cmpParams] at h1 h2 ⊢
        cases hpq : cmpPair p q <;> rw [hpq] at h1
        · exact Option.noConfusion h1
        · next o =>
          cases hqr : cmpPair q r <;> rw [hqr] at h2
          · exact Option.noConfusion h2
          · next o2 =>
            cases o <;> cases o2
            · rw [cmpPair_lt_trans p q r hpq hqr]
            · rw [show cmpPair p r = some .lt from cmpPair_eq_congr_r p q r hqr ▸ hpq]
            · simp at h2
            · rw [show cmpPair p r = some .lt from cmpPair_eq_congr p q r hpq ▸ hqr]
            · have hpr : cmpPair p r = some .eq := by
                rw [cmpPair_eq_congr p q r hpq, hqr]
              rw [hpr]
              exact ih qs rs h1 h2
            · simp at h2
            · simp at h1
            · simp at h1
            · simp at h1

theorem cmpKey_swap (a b : BKey) : cmpKey b a = (cmpKey a b).map Ordering.swap := by
  unfold cmpKey
  rw [scmp_swap a.1 b.1]
  cases h : pyCmpScalar a.1 b.1 with
  | none => rfl
  | some o =>
    cases o
    · rfl
    · exact cmpParams_swap _ _
    · rfl

theorem cmpKey_eq_iff (a b : BKey) :
    cmpKey a b = some .eq ↔
      pyCmpScalar a.1 b.1 = some .eq ∧ cmpParams a.2 b.2 = some .eq := by
  unfold cmpKey
  cases h : pyCmpScalar a.1 b.1 with
  | none => simp
  | some o => cases o <;> simp [h]

theorem cmpKey_eq_congr (a b c : BKey) (h : cmpKey a b = some .eq) :
    cmpKey a c = cmpKey b c := by
  obtain ⟨h1, h2⟩ := (cmpKey_eq_iff a b).mp h
  unfold cmpKey
  rw [scmp_eq_congr _ _ c.1 h1]
  cases pyCmpScalar b.1 c.1 with
  | none => rfl
  | some o =>
    cases o
    · rfl
    · exact cmpParams_eq_congr _ _ _ h2
    · rfl

theorem cmpKey_eq_congr_r (a b c : BKey) (h : cmpKey b c = some .eq) :
    cmpKey a b = cmpKey a c := by
  obtain ⟨h1, h2⟩ := (cmpKey_eq_iff b c).mp h
  unfold cmpKey
  rw [scmp_eq_congr_r a.1 _ _ h1]
  cases pyCmpScalar a.1 c.1 with
  | none => rfl
  | some o =>
    cases o
    · rfl
    · exact cmpParams_eq_congr_r _ _ _ h2
    · rfl

theorem cmpKey_lt_trans (a b c : BKey) :
    cmpKey a b = some .lt → cmpKey b c = some .lt → cmpKey a c = some .lt := by
  intro h1 h2
  unfold cmpKey at h1 h2 ⊢
  cases hab : pyCmpScalar a.1 b.1 <;> rw [hab] at h1
  · exact Option.noConfusion h1
  · next o =>
    cases hbc : pyCmpScalar b.1 c.1 <;> rw [hbc] at h2
    · exact Option.noConfusion h2
    · next o2 =>
      cases o <;> cases o2
      · rw [scmp_lt_trans _ _ _ hab hbc]
      · rw [show pyCmpScalar a.1 c.1 = some .lt from scmp_eq_congr_r a.1 _ _ hbc ▸ hab]
      · simp at h2
      · rw [show pyCmpScalar a.1 c.1 = some .lt from scmp_eq_congr _ _ c.1 hab ▸ hbc]
      · have hac : pyCmpScalar a.1 c.1 = some .eq := by
          rw [scmp_eq_congr _ _ c.1 hab, hbc]
        rw [hac]
        exact cmpParams_lt_trans _ _ _ h1 h2
      · simp at h2
      · simp at h1
      · simp at h1
      · simp at h1

theorem cmpKey_lt_asymm (a b : BKey) (h1 : cmpKey a b = some .lt)
    (h2 : cmpKey b a = some .lt) : False := by
  rw [cmpKey_swap, h1] at h2
  simp [Ordering.swap] at h2

theorem eqKey_iff (a b : BKey) : eqKey a b = true ↔ cmpKey a b = some .eq := by
  unfold eqKey
  cases h : cmpKey a b with
  | none => decide
  | some o => cases o <;> decide

theorem eqKey_symm (a b : BKey) : eqKey a b = eqKey b a := by
  unfold eqKey
  rw [cmpKey_swap a b]
  cases cmpKey a b with
  | none => rfl
  | some o => cases o <;> rfl

theorem eqKey_trans (a b c : BKey) (h1 : eqKey a b = true) (h2 : eqKey b c = true) :
    eqKey a c = true := by
  rw [eqKey_iff] at h1 h2 ⊢
  rw [cmpKey_eq_congr a b c h1, h2]

theorem eqKey_refl_of_hashable (k : BKey) (h : keyHashable k = true) :
    eqKey k k = true := by
  unfold keyHashable at h
  obtain ⟨h1, h2⟩ := Bool.and_eq_true_iff.mp h
  rw [eqKey_iff, cmpKey_eq_iff]
  refine ⟨scmp_refl _ h1, ?_⟩
  rcases k with ⟨name, ps⟩
  simp only at h2 ⊢
  clear h h1
  induction ps with
  | nil => rfl
  | cons p pstail ih =>
    simp only [List.all_cons, Bool.and_eq_true_iff] at h2
    simp only [cmpParams]
    rw [show cmpPair p p = some .eq from ?_]
    · exact ih h2.2
    · rw [cmpPair_eq_iff]
      exact ⟨(cmpS_eq_iff _ _).mpr rfl, scmp_refl _ h2.1⟩

/-!
Correctness of the (partial) sort: a successful `sortE` returns a
permutation of its input that is `keyLe`-chained, and on inputs whose
members are pairwise `==`-distinct it is strictly sorted; strict sortedness
plus the global transitivity/asymmetry of the key order make the result
independent of the input enumeration order.
-/

instance : IsTrans BKey keyLt := ⟨fun a b c => cmpKey_lt_trans a b c⟩

instance : IsAntisymm BKey keyLt :=
  ⟨fun a b h1 h2 => (cmpKey_lt_asymm a b h1 h2).elim⟩

theorem insertE_cases (x : BKey) (l m : List BKey) (h : insertE x l = .ok m) :
    m = x :: l ∨
    ∃ y ys zs, l = y :: ys ∧ m = y :: zs ∧ insertE x ys = .ok zs ∧
      (cmpKey x y = some .eq ∨ cmpKey x y = some .gt) := by
  cases l with
  | nil =>
    left
    simpa [insertE] using h.symm
  | cons y ys =>
    simp only [insertE] at h
    cases hcmp : cmpKey x y <;> rw [hcmp] at h
    · simp at h
    · next o =>
      cases o
      · left
        simpa using h.symm
      · cases hins : insertE x ys <;> rw [hins] at h <;> simp only [Except.bind] at h
        · simp at h
        · next zs =>
          right
          exact ⟨y, ys, zs, rfl, by simpa using h.symm, hins, Or.inl hcmp⟩
      · cases hins : insertE x ys <;> rw [hins] at h <;> simp only [Except.bind] at h
        · simp at h
        · next zs =>
          right
          exact ⟨y, ys, zs, rfl, by simpa using h.symm, hins, Or.inr hcmp⟩

theorem insertE_perm (x : BKey) : ∀ l m, insertE x l = .ok m → m.Perm (x :: l) := by
  intro l
  induction l with
  | nil =>
    intro m h
    rw [show m = [x] by simpa [insertE] using h.symm]
  | cons y ys ih =>
    intro m h
    rcases insertE_cases x (y :: ys) m h with h1 | ⟨y2, ys2, zs, hl, hm, hins, _⟩
    · rw [h1]
    · injection hl with e1 e2
      subst e1
      subst e2
      rw [hm]
      exact ((ih zs hins).cons _).trans (List.Perm.swap x _ _)

theorem sortE_perm : ∀ l m, sortE l = .ok m → m.Perm l := by
  intro l
  induction l with
  | nil =>
    intro m h
    rw [show m = [] from (Except.ok.inj (h : Except.ok ([] : List BKey) = .ok m)).symm]
  | cons x xs ih =>
    intro m h
    simp only [sortE] at h
    cases hs : sortE xs <;> rw [hs] at h
    · next a =>
      exact Except.noConfusion (show (Except.error a : Except Unit (List BKey)) = .ok m from h)
    · next ys =>
      exact (insertE_perm x ys m (show insertE x ys = .ok m from h)).trans ((ih ys hs).cons x)

theorem insertE_chain (x : BKey) : ∀ l m, insertE x l = .ok m →
    List.Chain' keyLe l → List.Chain' keyLe m := by
  intro l
  induction l with
  | nil =>
    intro m h _
    rw [show m = [x] by simpa [insertE] using h.symm]
    simp
  | cons y ys ih =>
    intro m h hc
    simp only [insertE] at h
    cases hcmp : cmpKey x y <;> rw [hcmp] at h
    · simp at h
    · next o =>
      have hyx_of : o = .eq ∨ o = .gt → keyLe y x := by
        intro ho
        have hswap := cmpKey_swap x y
        rw [hcmp] at hswap
        rcases ho with ho | ho <;> subst ho
        · exact Or.inr (by simpa using hswap)
        · exact Or.inl (by simpa [Ordering.swap] using hswap)
      cases o
      · rw [show m = x :: y :: ys by simpa using h.symm]
        exact hc.cons (Or.inl hcmp)
      · cases hins : insertE x ys <;> rw [hins] at h <;> simp only [Except.bind] at h
        · simp at h
        · next zs =>
          rw [show m = y :: zs by simpa using h.symm]
          have hzs : List.Chain' keyLe zs := ih zs hins hc.tail
          rw [List.chain'_cons']
          refine ⟨?_, hzs⟩
          intro z hz
          rcases insertE_cases x ys zs hins with h1 | ⟨y2, ys2, zs2, hl, hm, _, _⟩
          · rw [h1] at hz
            simp at hz
            rw [← hz]
            exact hyx_of (Or.inl rfl)
          · rw [hm] at hz
            simp at hz
            rw [← hz]
            subst hl
            exact hc.rel_head
      · cases hins : insertE x ys <;> rw [hins] at h <;> simp only [Except.bind] at h
        · simp at h
        · next zs =>
          rw [show m = y :: zs by simpa using h.symm]
          have hzs : List.Chain' keyLe zs := ih zs hins hc.tail
          rw [List.chain'_cons']
          refine ⟨?_, hzs⟩
          intro z hz
          rcases insertE_cases x ys zs hins with h1 | ⟨y2, ys2, zs2, hl, hm, _, _⟩
          · rw [h1] at hz
            simp at hz
            rw [← hz]
            exact hyx_of (Or.inr rfl)
          · rw [hm] at hz
            simp at hz
            rw [← hz]
            subst hl
            exact hc.rel_head

theorem sortE_chain : ∀ l m, sortE l = .ok m → List.Chain' keyLe m := by
  intro l
  induction l with
  | nil =>
    intro m h
    rw [show m = [] from (Except.ok.inj (h : Except.ok ([] : List BKey) = .ok m)).symm]
    exact List.chain'_nil
  | cons x xs ih =>
    intro m h
    simp only [sortE] at h
    cases hs : sortE xs <;> rw [hs] at h
    · next a =>
      exact Except.noConfusion (show (Except.error a : Except Unit (List BKey)) = .ok m from h)
    · next ys =>
      exact insertE_chain x ys m (show insertE x ys = .ok m from h) (ih ys hs)

/-- Pairwise Python-`==`-distinctness: what holds of any list of keys drawn
from a `set`. -/
def KeysDistinct (l : List BKey) : Prop :=
  List.Pairwise (fun a b => eqKey a b = false) l

theorem eqKey_symm_false : Symmetric (fun a b : BKey => eqKey a b = false) := by
  intro a b h
  rw [eqKey_symm] at h
  exact h

theorem chain_lt_of_distinct (m : List BKey) (hc : List.Chain' keyLe m)
    (hd : KeysDistinct m) : List.Chain' keyLt m := by
  induction m with
  | nil => exact List.chain'_nil
  | cons a l ih =>
    cases l with
    | nil => simp
    | cons b l2 =>
      rw [List.chain'_cons] at hc ⊢
      refine ⟨?_, ih hc.2 hd.of_cons⟩
      rcases hc.1 with h | h
      · exact h
      · have : eqKey a b = true := (eqKey_iff a b).mpr h
        have hab : eqKey a b = false := (List.pairwise_cons.mp hd).1 b (by simp)
        rw [hab] at this
        exact Bool.noConfusion this

theorem sortE_strict (l m : List BKey) (h : sortE l = .ok m) (hd : KeysDistinct l) :
    List.Pairwise keyLt m := by
  have hperm := sortE_perm l m h
  have hd2 : KeysDistinct m := (List.Perm.pairwise_iff (fun h => eqKey_symm_false h) hperm).mpr hd
  exact List.chain'_iff_pairwise.mp (chain_lt_of_distinct m (sortE_chain l m h) hd2)

theorem insertE_isOk (x : BKey) :
    ∀ l, (∀ y ∈ l, (cmpKey x y).isSome) → ∃ m, insertE x l = .ok m := by
  intro l
  induction l with
  | nil => exact fun _ => ⟨[x], rfl⟩
  | cons y ys ih =>
    intro h
    have hy : (cmpKey x y).isSome := h y (by simp)
    rcases Option.isSome_iff_exists.mp hy with ⟨o, ho⟩
    cases o
    · exact ⟨x :: y :: ys, by simp [insertE, ho]⟩
    · rcases ih (fun z hz => h z (by simp [hz])) with ⟨zs, hzs⟩
      exact ⟨y :: zs, by simp [insertE, ho, hzs, Except.bind]⟩
    · rcases ih (fun z hz => h z (by simp [hz])) with ⟨zs, hzs⟩
      exact ⟨y :: zs, by simp [insertE, ho, hzs, Except.bind]⟩

theorem sortE_isOk :
    ∀ l : List BKey, (∀ a ∈ l, ∀ b ∈ l, (cmpKey a b).isSome) → ∃ m, sortE l = .ok m := by
  intro l
  induction l with
  | nil => exact fun _ => ⟨[], rfl⟩
  | cons x xs ih =>
    intro h
    rcases ih (fun a ha b hb => h a (by simp [ha]) b (by simp [hb])) with ⟨ys, hys⟩
    have hmem : ∀ y ∈ ys, (cmpKey x y).isSome := by
      intro y hy
      have : y ∈ xs := (sortE_perm xs ys hys).mem_iff.mp hy
      exact h x (by simp) y (by simp [this])
    rcases insertE_isOk x ys hmem with ⟨m, hm⟩
    refine ⟨m, ?_⟩
    simp only [sortE]
    rw [hys]
    exact hm

theorem sortE_eq_of_perm (l₁ l₂ : List BKey) (hp : l₁.Perm l₂)
    (hd : KeysDistinct l₁) (ht : ∀ a ∈ l₁, ∀ b ∈ l₁, (cmpKey a b).isSome) :
    sortE l₁ = sortE l₂ := by
  rcases sortE_isOk l₁ ht with ⟨m₁, hm₁⟩
  have ht2 : ∀ a ∈ l₂, ∀ b ∈ l₂, (cmpKey a b).isSome := by
    intro a ha b hb
    exact ht a (hp.mem_iff.mpr ha) b (hp.mem_iff.mpr hb)
  rcases sortE_isOk l₂ ht2 with ⟨m₂, hm₂⟩
  have hd2 : KeysDistinct l₂ := (List.Perm.pairwise_iff (fun h => eqKey_symm_false h) hp).mp hd
  have hs₁ := sortE_strict l₁ m₁ hm₁ hd
  have hs₂ := sortE_strict l₂ m₂ hm₂ hd2
  have hperm : m₁.Perm m₂ :=
    ((sortE_perm l₁ m₁ hm₁).trans hp).trans (sortE_perm l₂ m₂ hm₂).symm
  rw [hm₁, hm₂, List.eq_of_perm_of_sorted hperm hs₁ hs₂]

/-!
The key-set union: distinctness and coverage.
-/

theorem unionKeys_mem_either (base cur : BDict) (k : BKey)
    (h : k ∈ unionKeys base cur) : k ∈ dictKeys base ∨ k ∈ dictKeys cur := by
  unfold unionKeys at h
  rcases List.mem_append.mp h with h | h
  · exact Or.inl h
  · exact Or.inr (List.mem_of_mem_filter h)

theorem unionKeys_covers (base cur : BDict) (k : BKey)
    (hk : keyHashable k = true)
    (h : k ∈ dictKeys base ∨ k ∈ dictKeys cur) :
    ∃ j ∈ unionKeys base cur, eqKey j k = true := by
  rcases h with h | h
  · exact ⟨k, List.mem_append.mpr (Or.inl h), eqKey_refl_of_hashable k hk⟩
  · by_cases hany : (dictKeys base).any (fun b => eqKey b k) = true
    · rcases List.any_eq_true.mp hany with ⟨b, hb, hbk⟩
      exact ⟨b, List.mem_append.mpr (Or.inl hb), hbk⟩
    · refine ⟨k, List.mem_append.mpr (Or.inr ?_), eqKey_refl_of_hashable k hk⟩
      rw [List.mem_filter]
      exact ⟨h, by simp [hany]⟩

theorem unionKeys_distinct (base cur : BDict)
    (hdb : KeysDistinct (dictKeys base)) (hdc : KeysDistinct (dictKeys cur)) :
    KeysDistinct (unionKeys base cur) := by
  unfold unionKeys KeysDistinct
  rw [List.pairwise_append]
  refine ⟨hdb, List.Pairwise.filter _ hdc, ?_⟩
  intro a ha b hb
  have hfil := (List.mem_filter.mp hb).2
  simp only [Bool.not_eq_true'] at hfil
  exact Bool.eq_false_iff.mpr (List.any_eq_false.mp hfil a ha)

theorem countP_le_one_of_distinct (l : List BKey) (hd : KeysDistinct l) (k : BKey) :
    l.countP (fun j => eqKey j k) ≤ 1 := by
  induction l with
  | nil => simp
  | cons a t ih =>
    rw [List.countP_cons]
    rcases List.pairwise_cons.mp hd with ⟨hha, ht⟩
    by_cases h : eqKey a k = true
    · have hzero : t.countP (fun j => eqKey j k) = 0 := by
        rw [List.countP_eq_zero]
        intro j hj
        intro hjk
        have hja : eqKey j a = true :=
          eqKey_trans j k a hjk (eqKey_symm a k ▸ h)
        have := hha j hj
        rw [eqKey_symm] at this
        rw [hja] at this
        exact Bool.noConfusion this
      simp [h, hzero]
    · simp only [h]
      simpa using ih ht

/-!
C1: the report contains one row per distinct identity key of either input,
strictly sorted ascending.
-/

/-- C1: for any two loaded mappings whose keys are hashable and pairwise
distinct (both are loader invariants), a successfully produced row-key
sequence is strictly ascending in the Python key order, mentions only keys
of the two inputs, and contains exactly one entry for each identity key
present in either input. -/
theorem C1_rows_sorted_unique_union (base cur : BDict) (ks : List BKey)
    (hgb : (dictKeys base).all keyHashable = true)
    (hgc : (dictKeys cur).all keyHashable = true)
    (hdb : KeysDistinct (dictKeys base))
    (hdc : KeysDistinct (dictKeys cur))
    (hok : reportKeys base cur = .ok ks) :
    List.Pairwise keyLt ks ∧
    (∀ k ∈ ks, k ∈ dictKeys base ∨ k ∈ dictKeys cur) ∧
    (∀ k, k ∈ dictKeys base ∨ k ∈ dictKeys cur →
      ks.countP (fun j => eqKey j k) = 1) := by
  unfold reportKeys at hok
  have hperm := sortE_perm _ _ hok
  have hdu := unionKeys_distinct base cur hdb hdc
  refine ⟨sortE_strict _ _ hok hdu, ?_, ?_⟩
  · intro k hk
    exact unionKeys_mem_either base cur k (hperm.mem_iff.mp hk)
  · intro k hmem
    have hk : keyHashable k = true := by
      rcases hmem with h | h
      · exact List.all_eq_true.mp hgb k h
      · exact List.all_eq_true.mp hgc k h
    have hdks : KeysDistinct ks :=
      (List.Perm.pairwise_iff (fun h => eqKey_symm_false h) hperm).mpr hdu
    have hle := countP_le_one_of_distinct ks hdks k
    rcases unionKeys_covers base cur k hk hmem with ⟨j, hj, hjk⟩
    have hpos : 0 < ks.countP (fun x => eqKey x k) :=
      List.countP_pos_iff.mpr ⟨j, hperm.mem_iff.mpr hj, hjk⟩
    omega

/-- A tiny baseline mapping used by concrete witnesses: benchmarks
`A(n=1)` (score 100, unit `ops/s`) and `B`. -/
def wBase : BDict :=
  [((Json.str "A", [("n", Json.str "1")]),
    [("benchmark", Json.str "A"), ("params", Json.obj [("n", Json.str "1")]),
     ("primaryMetric", Json.obj [("score", Json.float (mkRat 100 1)),
       ("scoreUnit", Json.str "ops/s")])]),
   ((Json.str "B", []),
    [("benchmark", Json.str "B"),
     ("primaryMetric", Json.obj [("score", Json.int 7)])])]

/-- A tiny current mapping used by concrete witnesses: benchmarks
`A(n=1)` (score 110, unit `ops/s`) and `C`. -/
def wCur : BDict :=
  [((Json.str "A", [("n", Json.str "1")]),
    [("benchmark", Json.str "A"), ("params", Json.obj [("n", Json.str "1")]),
     ("primaryMetric", Json.obj [("score", Json.float (mkRat 110 1)),
       ("scoreUnit", Json.str "ops/s")])]),
   ((Json.str "C", []),
    [("benchmark", Json.str "C"),
     ("primaryMetric", Json.obj [("score", Json.int 9)])])]

/-- Witness for C1 at the concrete inputs `wBase`, `wCur`. -/
theorem C1_witness :
    ((dictKeys wBase).all keyHashable = true ∧
     (dictKeys wCur).all keyHashable = true ∧
     KeysDistinct (dictKeys wBase) ∧
     KeysDistinct (dictKeys wCur) ∧
     reportKeys wBase wCur =
       .ok [(Json.str "A", [("n", Json.str "1")]), (Json.str "B", []),
            (Json.str "C", [])]) ∧
    (List.Pairwise keyLt
        [(Json.str "A", [("n", Json.str "1")]), (Json.str "B", []),
         (Json.str "C", [])] ∧
     (∀ k ∈ [(Json.str "A", [("n", Json.str "1")]), (Json.str "B", []),
         (Json.str "C", [])], k ∈ dictKeys wBase ∨ k ∈ dictKeys wCur) ∧
     (∀ k, k ∈ dictKeys wBase ∨ k ∈ dictKeys wCur →
       List.countP (fun j => eqKey j k)
         [(Json.str "A", [("n", Json.str "1")]), (Json.str "B", []),
          (Json.str "C", [])] = 1)) := by
  have h1 : (dictKeys wBase).all keyHashable = true := by decide
  have h2 : (dictKeys wCur).all keyHashable = true := by decide
  have h3 : KeysDistinct (dictKeys wBase) := by
    unfold KeysDistinct
    decide
  have h4 : KeysDistinct (dictKeys wCur) := by
    unfold KeysDistinct
    decide
  have h5 : reportKeys wBase wCur =
      .ok [(Json.str "A", [("n", Json.str "1")]), (Json.str "B", []),
           (Json.str "C", [])] := rfl
  exact ⟨⟨h1, h2, h3, h4, h5⟩,
    C1_rows_sorted_unique_union wBase wCur _ h1 h2 h3 h4 h5⟩

/-!
C2: totality of the key order.
-/

/-- Keys whose benchmark name and parameter values are all strings (the
shape JMH itself emits). -/
def keyAllStr (k : BKey) : Bool :=
  (match k.1 with | Json.str _ => true | _ => false) &&
  k.2.all (fun p => match p.2 with | Json.str _ => true | _ => false)

theorem cmpParams_isSome_of_str (xs : List (String × Json)) :
    ∀ ys, (xs.all (fun p => match p.2 with | Json.str _ => true | _ => false)) = true →
      (ys.all (fun p => match p.2 with | Json.str _ => true | _ => false)) = true →
      (cmpParams xs ys).isSome = true := by
  induction xs with
  | nil => intro ys _ _; cases ys <;> simp [cmpParams]
  | cons p ps ih =>
    intro ys hx hy
    cases ys with
    | nil => simp [cmpParams]
    | cons q qs =>
      simp only [List.all_cons, Bool.and_eq_true_iff] at hx hy
      simp only [cmpParams]
      cases hp : cmpPair p q with
      | none =>
        exfalso
        unfold cmpPair at hp
        cases hps : cmpS p.1 q.1 <;> rw [hps] at hp
        · exact Option.noConfusion hp
        · rcases hvp : p.2 <;> rw [hvp] at hx <;> try exact Bool.noConfusion hx.1
          rcases hvq : q.2 <;> rw [hvq] at hy <;> try exact Bool.noConfusion hy.1
          rw [hvp, hvq] at hp
          simp [pyCmpScalar, toSV, svCmp] at hp
        · exact Option.noConfusion hp
      | some o =>
        cases o
        · simp
        · exact ih qs hx.2 hy.2
        · simp

/-- C2, amended: the key comparison is defined (never raises) whenever both
keys carry only string names and string parameter values; with
differently-typed parameter values it can be undefined (see the
counterexample). -/
theorem C2_total_on_string_keys (k₁ k₂ : BKey)
    (h1 : keyAllStr k₁ = true) (h2 : keyAllStr k₂ = true) :
    (cmpKey k₁ k₂).isSome = true := by
  unfold keyAllStr at h1 h2
  rcases Bool.and_eq_true_iff.mp h1 with ⟨h1n, h1p⟩
  rcases Bool.and_eq_true_iff.mp h2 with ⟨h2n, h2p⟩
  rcases hn1 : k₁.1 <;> rw [hn1] at h1n <;> try exact Bool.noConfusion h1n
  rcases hn2 : k₂.1 <;> rw [hn2] at h2n <;> try exact Bool.noConfusion h2n
  unfold cmpKey
  rw [hn1, hn2]
  simp only [pyCmpScalar, toSV, svCmp]
  cases hc : cmpS _ _
  · simp
  · exact cmpParams_isSome_of_str _ _ h1p h2p
  · simp

/-- C2, counterexample: the loader accepts a record with an `int` parameter
value and one with a `str` parameter value, and comparing the two resulting
identity keys is undefined (Python raises `TypeError`), so the sort that
orders report rows fails on them. -/
theorem C2_counterexample :
    load (.parsed (Json.arr [Json.obj [("benchmark", Json.str "A"),
        ("params", Json.obj [("n", Json.int 1)])]])) =
      .ok [((Json.str "A", [("n", Json.int 1)]),
        [("benchmark", Json.str "A"), ("params", Json.obj [("n", Json.int 1)])])] ∧
    load (.parsed (Json.arr [Json.obj [("benchmark", Json.str "A"),
        ("params", Json.obj [("n", Json.str "1")])]])) =
      .ok [((Json.str "A", [("n", Json.str "1")]),
        [("benchmark", Json.str "A"), ("params", Json.obj [("n", Json.str "1")])])] ∧
    cmpKey (Json.str "A", [("n", Json.int 1)]) (Json.str "A", [("n", Json.str "1")]) =
      none ∧
    sortE [(Json.str "A", [("n", Json.int 1)]),
           (Json.str "A", [("n", Json.str "1")])] = .error () := by
  exact ⟨rfl, rfl, rfl, rfl⟩

/-- Witness for the amended C2 at two concrete string-valued keys. -/
theorem C2_total_witness :
    (keyAllStr (Json.str "A", [("n", Json.str "1")]) = true ∧
     keyAllStr (Json.str "B", [("m", Json.str "2"), ("n", Json.str "3")]) = true) ∧
    (cmpKey (Json.str "A", [("n", Json.str "1")])
       (Json.str "B", [("m", Json.str "2"), ("n", Json.str "3")])).isSome = true := by
  have h1 : keyAllStr (Json.str "A", [("n", Json.str "1")]) = true := by decide
  have h2 : keyAllStr (Json.str "B", [("m", Json.str "2"), ("n", Json.str "3")]) = true := by
    decide
  exact ⟨⟨h1, h2⟩, C2_total_on_string_keys _ _ h1 h2⟩

/-!
C3, C7, C10: the Δ column and the numeric-type test.
-/

/-- C3: when both records have numeric scores and the baseline score is
exactly zero, the Δ column is the "not applicable" marker `"n/a"`; the
ratio is computed only in the nonzero branch, so no division is attempted. -/
theorem C3_zero_baseline_guard (cq : ℚ) :
    deltaStr (some 0) (some cq) = "n/a" := by
  simp [deltaStr]

/-- C7, counterexample: at baseline 1000.0 and current 950.0 (ratio exactly
0.950) the script renders the percentage with an ASCII hyphen-minus,
`"0.950× (-5.0%)"`, not the example string `"0.950× (−5.0%)"` of the spec,
which uses U+2212 MINUS SIGN. -/
theorem C7_counterexample :
    deltaStr (some (mkRat 1000 1)) (some (mkRat 950 1)) = "0.950× (-5.0%)" ∧
    (("0.950× (-5.0%)" : String) == ("0.950× (−5.0%)" : String)) = false := by
  exact ⟨rfl, rfl⟩

/-- C7, amended: with both scores numeric and a nonzero baseline, the Δ
column is the ratio to 3 decimal places, `×`, and the signed percentage
change to 1 decimal place in ASCII (e.g. `"0.950× (-5.0%)"`,
`"1.100× (+10.0%)"`). -/
theorem C7_delta_format (bq cq : ℚ) (h : bq ≠ 0) :
    deltaStr (some bq) (some cq) =
      fmtFixed 3 (qDiv cq bq) ++ "× (" ++
        fmtFixedSigned 1 (qMul (qSub (qDiv cq bq) 1) 100) ++ "%)" ∧
    deltaStr (some (mkRat 1000 1)) (some (mkRat 950 1)) = "0.950× (-5.0%)" ∧
    deltaStr (some (mkRat 100 1)) (some (mkRat 110 1)) = "1.100× (+10.0%)" := by
  refine ⟨?_, rfl, rfl⟩
  simp [deltaStr, h]

/-- Witness for the amended C7 at baseline 1000, current 950. -/
theorem C7_delta_format_witness :
    (mkRat 1000 1 ≠ 0) ∧
    deltaStr (some (mkRat 1000 1)) (some (mkRat 950 1)) =
      fmtFixed 3 (qDiv (mkRat 950 1) (mkRat 1000 1)) ++ "× (" ++
        fmtFixedSigned 1
          (qMul (qSub (qDiv (mkRat 950 1) (mkRat 1000 1)) 1) 100) ++ "%)" := by
  have h : mkRat 1000 1 ≠ 0 := by decide
  exact ⟨h, (C7_delta_format (mkRat 1000 1) (mkRat 950 1) h).1⟩

/-- C10: a boolean `score` passes the `isinstance(score, (int, float))`
test (Python `bool` subclasses `int`), so it is formatted as `1`/`0` by
`%.6g` and yields a numeric score that participates in delta
computation. -/
theorem C10_bool_score_numeric (d : Entry) (mo : List (String × Json)) (b : Bool)
    (hne : d.isEmpty = false)
    (hm : objGetD d "primaryMetric" (Json.obj []) = Json.obj mo)
    (hs : objGetD mo "score" Json.null = Json.bool b) :
    ratOf (Json.bool b) = some (if b then 1 else 0) ∧
    numericScore (some d) = .ok (some (if b then 1 else 0)) ∧
    scoreAndUnit (some d) =
      .ok ((if b then "1" else "0"), pyStr (objGetD mo "scoreUnit" (Json.str ""))) := by
  refine ⟨rfl, ?_, ?_⟩
  · simp only [numericScore]
    rw [if_neg (show ¬(List.isEmpty d = true) by simp [hne]), hm]
    simp only [hs]
    cases b <;> rfl
  · simp only [scoreAndUnit]
    rw [if_neg (show ¬(List.isEmpty d = true) by simp [hne]), hm]
    simp only [hs]
    cases b <;> rfl

/-- Witness for C10 at a concrete record whose score is `true`. -/
theorem C10_witness :
    (([("primaryMetric", Json.obj [("score", Json.bool true)])] : Entry).isEmpty
        = false ∧
     objGetD [("primaryMetric", Json.obj [("score", Json.bool true)])]
       "primaryMetric" (Json.obj []) = Json.obj [("score", Json.bool true)] ∧
     objGetD [("score", Json.bool true)] "score" Json.null = Json.bool true) ∧
    (ratOf (Json.bool true) = some 1 ∧
     numericScore (some [("primaryMetric", Json.obj [("score", Json.bool true)])]) =
       .ok (some 1) ∧
     scoreAndUnit (some [("primaryMetric", Json.obj [("score", Json.bool true)])]) =
       .ok ("1", "")) := by
  have h1 : ([("primaryMetric", Json.obj [("score", Json.bool true)])] : Entry).isEmpty
      = false := rfl
  have h2 : objGetD [("primaryMetric", Json.obj [("score", Json.bool true)])]
      "primaryMetric" (Json.obj []) = Json.obj [("score", Json.bool true)] := rfl
  have h3 : objGetD [("score", Json.bool true)] "score" Json.null =
      Json.bool true := rfl
  have hmain := C10_bool_score_numeric _ _ true h1 h2 h3
  exact ⟨⟨h1, h2, h3⟩, hmain.1, hmain.2.1, hmain.2.2⟩

/-!
C4: a present but non-mapping `primaryMetric`.
-/

/-- Mapping-shape test on a parsed value. -/
def isObjJson : Json → Bool
  | .obj _ => true
  | _ => false

/-- C4, counterexample: a record whose `primaryMetric` is the string
`"broken"` makes `_score_and_unit`/`_numeric_score` raise `AttributeError`
(`.get` on a non-dict), and the whole comparison aborts instead of showing
the "no data" marker. -/
theorem C4_counterexample :
    scoreAndUnit (some [("benchmark", Json.str "A"),
      ("primaryMetric", Json.str "broken")]) = .error () ∧
    numericScore (some [("benchmark", Json.str "A"),
      ("primaryMetric", Json.str "broken")]) = .error () ∧
    compare_to_markdown
      [((Json.str "A", []),
        [("benchmark", Json.str "A"), ("primaryMetric", Json.str "broken")])]
      [] "T" none = .error () := by
  exact ⟨rfl, rfl, rfl⟩

/-- C4, amended: an *absent* `primaryMetric` is recovered (score shown as
the "no data" marker and excluded from delta computation), but a *present
non-mapping* `primaryMetric` aborts the run with an uncaught
`AttributeError`. -/
theorem C4_metric_shape (d : Entry) (hne : d.isEmpty = false) :
    (d.find? (fun p => p.1 == "primaryMetric") = none →
      scoreAndUnit (some d) = .ok (EM_DASH, "") ∧
      numericScore (some d) = .ok none) ∧
    (∀ v, d.find? (fun p => p.1 == "primaryMetric") = some v →
      isObjJson v.2 = false →
      scoreAndUnit (some d) = .error () ∧ numericScore (some d) = .error ()) := by
  constructor
  · intro habs
    have hg : objGetD d "primaryMetric" (Json.obj []) = Json.obj [] := by
      unfold objGetD
      rw [habs]
    constructor
    · simp only [scoreAndUnit]
      rw [if_neg (show ¬(List.isEmpty d = true) by simp [hne]), hg]
      rfl
    · simp only [numericScore]
      rw [if_neg (show ¬(List.isEmpty d = true) by simp [hne]), hg]
      rfl
  · intro v hfind hnobj
    have hg : objGetD d "primaryMetric" (Json.obj []) = v.2 := by
      unfold objGetD
      rw [hfind]
    constructor
    · simp only [scoreAndUnit]
      rw [if_neg (show ¬(List.isEmpty d = true) by simp [hne]), hg]
      cases hv : v.2 <;> rw [hv] at hnobj <;> first
        | rfl
        | exact Bool.noConfusion hnobj
    · simp only [numericScore]
      rw [if_neg (show ¬(List.isEmpty d = true) by simp [hne]), hg]
      cases hv : v.2 <;> rw [hv] at hnobj <;> first
        | rfl
        | exact Bool.noConfusion hnobj

/-- Witness for the amended C4: an entry with no `primaryMetric` is
recovered, an entry whose `primaryMetric` is a string aborts. -/
theorem C4_metric_shape_witness :
    (([("benchmark", Json.str "A")] : Entry).isEmpty = false ∧
     ([("benchmark", Json.str "A")] : Entry).find?
        (fun p => p.1 == "primaryMetric") = none ∧
     scoreAndUnit (some [("benchmark", Json.str "A")]) = .ok (EM_DASH, "") ∧
     numericScore (some [("benchmark", Json.str "A")]) = .ok none) ∧
    (([("primaryMetric", Json.str "broken")] : Entry).isEmpty = false ∧
     ([("primaryMetric", Json.str "broken")] : Entry).find?
        (fun p => p.1 == "primaryMetric") =
          some ("primaryMetric", Json.str "broken") ∧
     isObjJson (Json.str "broken") = false ∧
     scoreAndUnit (some [("primaryMetric", Json.str "broken")]) = .error () ∧
     numericScore (some [("primaryMetric", Json.str "broken")]) = .error ()) := by
  have ha1 : (([("benchmark", Json.str "A")] : Entry)).isEmpty = false := rfl
  have ha2 : ([("benchmark", Json.str "A")] : Entry).find?
      (fun p => p.1 == "primaryMetric") = none := rfl
  have hb1 : (([("primaryMetric", Json.str "broken")] : Entry)).isEmpty = false := rfl
  have hb2 : ([("primaryMetric", Json.str "broken")] : Entry).find?
      (fun p => p.1 == "primaryMetric") =
        some ("primaryMetric", Json.str "broken") := rfl
  have hb3 : isObjJson (Json.str "broken") = false := rfl
  have hrec := (C4_metric_shape [("benchmark", Json.str "A")] ha1).1 ha2
  have habort := (C4_metric_shape [("primaryMetric", Json.str "broken")] hb1).2
    ("primaryMetric", Json.str "broken") hb2 hb3
  exact ⟨⟨ha1, ha2, hrec.1, hrec.2⟩, ⟨hb1, hb2, hb3, habort.1, habort.2⟩⟩

/-!
C5: loader outcomes per read result.
-/

theorem buildDict_not_exit2 : ∀ (es : List Json) (d : BDict),
    LoadOutcome.isExit2 (buildDict es d) = false := by
  intro es
  induction es with
  | nil => intro d; rfl
  | cons j rest ih =>
    intro d
    cases j <;> simp only [buildDict] <;> try exact ih d
    next e =>
      by_cases h : keyHashable
          (objGetD e "benchmark" (Json.str ""),
            sortParams (match objGetD e "params" Json.null with
              | Json.obj o => o
              | _ => [])) = true
      · rw [if_pos h]
        exact ih _
      · rw [if_neg h]
        rfl

/-- C5, counterexample: a present-but-unreadable source (any read error
other than `FileNotFoundError`, e.g. `PermissionError`) is not recovered as
an empty mapping — the exception propagates uncaught. -/
theorem C5_counterexample :
    load FileInput.unreadable = LoadOutcome.uncaught ∧
    LoadOutcome.isOkEmpty (load FileInput.unreadable) = false := by
  exact ⟨rfl, rfl⟩

/-- C5, amended: an absent source loads as an empty mapping; a present but
unparsable source exits with status 2; a present source whose read raises
any other error propagates the exception uncaught; once a value parses,
exit status 2 can no longer occur. -/
theorem C5_load_outcomes (j : Json) :
    load .absent = .ok [] ∧
    load .malformed = .exit2 ∧
    load .unreadable = .uncaught ∧
    LoadOutcome.isExit2 (load (.parsed j)) = false := by
  refine ⟨rfl, rfl, rfl, ?_⟩
  cases j <;> first
    | rfl
    | exact buildDict_not_exit2 _ []

/-!
C8: unit resolution.
-/

theorem pyOr_eq_specRule (cunit bunit : String) :
    pyOr cunit (pyOr bunit "") = specUnitRule true cunit bunit := by
  unfold pyOr specUnitRule
  by_cases hc : cunit == ""
  · simp [hc]
  · simp [hc]

/-- C8, counterexample: on a row with both scores numeric, a current record
that explicitly declares `"scoreUnit": ""` makes the script display the
empty unit without falling back to the baseline `"s"`, while the uniform
rule of the spec resolves to `"s"`. -/
theorem C8_counterexample :
    unitStr (some [("primaryMetric", Json.obj [("score", Json.int 110),
        ("scoreUnit", Json.str "")])])
      (some (mkRat 100 1)) (some (mkRat 110 1)) "s" "" = .ok "" ∧
    specUnitRule true "" "s" = "s" ∧
    (("" : String) == "s") = false ∧
    renderRow
      [((Json.str "A", []),
        [("benchmark", Json.str "A"),
         ("primaryMetric", Json.obj [("score", Json.int 100),
           ("scoreUnit", Json.str "s")])])]
      [((Json.str "A", []),
        [("benchmark", Json.str "A"),
         ("primaryMetric", Json.obj [("score", Json.int 110),
           ("scoreUnit", Json.str "")])])]
      (Json.str "A", []) =
      .ok "| `A` | — | 100 | 110 | 1.100× (+10.0%) |  |" := by
  exact ⟨rfl, rfl, rfl, rfl⟩

/-- C8, amended: the displayed unit follows the rule of the spec (the unit
of current when current exists and declares a non-empty one; else that of
baseline; else empty) on every row *except* when both scores are numeric
and the metric of the current record declares `scoreUnit` as the empty
string — there the code uses the declared empty value with no baseline
fallback. -/
theorem C8_unit_rule (c : Option Entry) (bs cs : Option ℚ) (bunit cunit : String) :
    ((bs.isSome = false ∨ cs.isSome = false) → (c = none → cunit = "") →
      unitStr c bs cs bunit cunit = .ok (specUnitRule c.isSome cunit bunit)) ∧
    (∀ bq cq d mo, bs = some bq → cs = some cq → c = some d →
      objGetD d "primaryMetric" (Json.obj []) = Json.obj mo →
      ((mo.find? (fun p => p.1 == "scoreUnit") = none → cunit = "" →
        unitStr c bs cs bunit cunit = .ok (specUnitRule true cunit bunit)) ∧
       (∀ p, mo.find? (fun p => p.1 == "scoreUnit") = some p →
        cunit = pyStr p.2 → (cunit == "") = false →
        unitStr c bs cs bunit cunit = .ok (specUnitRule true cunit bunit)))) := by
  constructor
  · intro hsome hcu
    have hbranch : unitStr c bs cs bunit cunit = .ok (pyOr cunit (pyOr bunit "")) := by
      unfold unitStr
      rcases hsome with h | h
      · cases bs
        · rfl
        · simp at h
      · cases cs
        · cases bs <;> rfl
        · simp at h
    rw [hbranch, pyOr_eq_specRule]
    cases c with
    | none =>
      rw [hcu rfl]
      unfold specUnitRule
      simp
    | some d => rfl
  · intro bq cq d mo hbs hcs hc hm
    subst hbs
    subst hcs
    subst hc
    constructor
    · intro hfind hcu
      subst hcu
      simp only [unitStr]
      rw [hm]
      simp only [hfind]
      unfold specUnitRule pyOr
      simp
    · intro p hfind hcu hcne
      simp only [unitStr]
      rw [hm]
      simp only [hfind]
      unfold specUnitRule
      rw [← hcu]
      simp [hcne]

/-- Witness for the amended C8: the rule holds on a no-delta row (current
absent) and on a numeric row whose current record declares the non-empty
unit `"ms"`. -/
theorem C8_unit_rule_witness :
    ((Option.isSome (none : Option ℚ) = false ∨
        Option.isSome (none : Option ℚ) = false) ∧
     unitStr (none : Option Entry) (some (mkRat 5 1)) none "s" "" =
       .ok (specUnitRule false "" "s") ∧
     specUnitRule false "" "s" = "s") ∧
    (objGetD [("primaryMetric", Json.obj [("score", Json.int 110),
        ("scoreUnit", Json.str "ms")])] "primaryMetric" (Json.obj []) =
      Json.obj [("score", Json.int 110), ("scoreUnit", Json.str "ms")] ∧
     List.find? (fun p => p.1 == "scoreUnit")
       [("score", Json.int 110), ("scoreUnit", Json.str "ms")] =
         some ("scoreUnit", Json.str "ms") ∧
     (("ms" : String) == "") = false ∧
     unitStr (some [("primaryMetric", Json.obj [("score", Json.int 110),
         ("scoreUnit", Json.str "ms")])])
       (some (mkRat 100 1)) (some (mkRat 110 1)) "s" "ms" =
       .ok (specUnitRule true "ms" "s") ∧
     specUnitRule true "ms" "s" = "ms") := by
  have hcase1 :=
    (C8_unit_rule (none : Option Entry) (some (mkRat 5 1)) none "s" "").1
      (Or.inr rfl) (fun _ => rfl)
  have hm : objGetD [("primaryMetric", Json.obj [("score", Json.int 110),
      ("scoreUnit", Json.str "ms")])] "primaryMetric" (Json.obj []) =
    Json.obj [("score", Json.int 110), ("scoreUnit", Json.str "ms")] := rfl
  have hfind : List.find? (fun p => p.1 == "scoreUnit")
      [("score", Json.int 110), ("scoreUnit", Json.str "ms")] =
        some ("scoreUnit", Json.str "ms") := rfl
  have hcase2 :=
    ((C8_unit_rule (some [("primaryMetric", Json.obj [("score", Json.int 110),
        ("scoreUnit", Json.str "ms")])])
      (some (mkRat 100 1)) (some (mkRat 110 1)) "s" "ms").2
      (mkRat 100 1) (mkRat 110 1) _ _ rfl rfl rfl hm).2
      ("scoreUnit", Json.str "ms") hfind rfl rfl
  exact ⟨⟨Or.inl rfl, hcase1, rfl⟩, ⟨hm, hfind, rfl, hcase2, rfl⟩⟩

/-!
C6: determinism — the report depends only on the two mappings, not on the
iteration order of the key-set union.
-/

/-- C6: for any enumeration of the key-set union (Python `set` iteration
order is unspecified across runs under hash randomization), the report is
the one produced from the canonical enumeration, provided the two mappings
have pairwise-distinct keys (a dict invariant) and all key pairs are
comparable; the pipeline is a pure function of the two mappings. -/
theorem C6_determinism (enum : List BKey) (base cur : BDict) (t : String)
    (n : Option String)
    (hdb : KeysDistinct (dictKeys base)) (hdc : KeysDistinct (dictKeys cur))
    (ht : ∀ a ∈ unionKeys base cur, ∀ b ∈ unionKeys base cur,
      (cmpKey a b).isSome = true)
    (hp : enum.Perm (unionKeys base cur)) :
    compareWithEnum enum base cur t n = compare_to_markdown base cur t n := by
  unfold compare_to_markdown
  unfold compareWithEnum
  have hdu := unionKeys_distinct base cur hdb hdc
  have hde : KeysDistinct enum :=
    (List.Perm.pairwise_iff (fun h => eqKey_symm_false h) hp).mpr hdu
  have hte : ∀ a ∈ enum, ∀ b ∈ enum, (cmpKey a b).isSome = true := by
    intro a ha b hb
    exact ht a (hp.mem_iff.mp ha) b (hp.mem_iff.mp hb)
  rw [sortE_eq_of_perm enum (unionKeys base cur) hp hde hte]

/-- Witness for C6: a shuffled enumeration of the union of `wBase` and
`wCur` produces the identical report. -/
theorem C6_determinism_witness :
    (KeysDistinct (dictKeys wBase) ∧
     KeysDistinct (dictKeys wCur) ∧
     (∀ a ∈ unionKeys wBase wCur, ∀ b ∈ unionKeys wBase wCur,
       (cmpKey a b).isSome = true) ∧
     List.Perm
       [(Json.str "B", []), (Json.str "A", [("n", Json.str "1")]),
        (Json.str "C", [])]
       (unionKeys wBase wCur)) ∧
    compareWithEnum
      [(Json.str "B", []), (Json.str "A", [("n", Json.str "1")]),
       (Json.str "C", [])] wBase wCur "T" none =
      compare_to_markdown wBase wCur "T" none := by
  have hdb : KeysDistinct (dictKeys wBase) := by
    unfold KeysDistinct
    decide
  have hdc : KeysDistinct (dictKeys wCur) := by
    unfold KeysDistinct
    decide
  have ht : ∀ a ∈ unionKeys wBase wCur, ∀ b ∈ unionKeys wBase wCur,
      (cmpKey a b).isSome = true := by decide
  have hp : List.Perm
      [(Json.str "B", []), (Json.str "A", [("n", Json.str "1")]),
       (Json.str "C", [])]
      (unionKeys wBase wCur) := by
    have : unionKeys wBase wCur =
        [(Json.str "A", [("n", Json.str "1")]), (Json.str "B", []),
         (Json.str "C", [])] := rfl
    rw [this]
    exact List.Perm.swap _ _ _
  exact ⟨⟨hdb, hdc, ht, hp⟩,
    C6_determinism _ wBase wCur "T" none hdb hdc ht hp⟩

/-!
C9: the driver after loading.
-/

/-- The `primaryMetric` of a record is absent or mapping-shaped (the shapes the
comparison loop survives). -/
def entryMetricOk (d : Entry) : Bool :=
  match d.find? (fun p => p.1 == "primaryMetric") with
  | none => true
  | some p => isObjJson p.2

/-- Every stored record has a survivable `primaryMetric`. -/
def dictMetricsOk (dict : BDict) : Bool := dict.all (fun p => entryMetricOk p.2)

theorem objGetD_metric_obj (d : Entry) (h : entryMetricOk d = true) :
    ∃ mo, objGetD d "primaryMetric" (Json.obj []) = Json.obj mo := by
  unfold entryMetricOk at h
  unfold objGetD
  cases hf : d.find? (fun p => p.1 == "primaryMetric") with
  | none => exact ⟨[], rfl⟩
  | some p =>
    rw [hf] at h
    have h2 : isObjJson p.2 = true := h
    cases hv : p.2 <;> rw [hv] at h2 <;> try exact Bool.noConfusion h2
    next mo => exact ⟨mo, show p.2 = Json.obj mo from hv⟩

theorem scoreAndUnit_isOk (e : Option Entry)
    (h : ∀ d, e = some d → entryMetricOk d = true) :
    ∃ r, scoreAndUnit e = .ok r := by
  cases e with
  | none => exact ⟨(EM_DASH, ""), rfl⟩
  | some d =>
    simp only [scoreAndUnit]
    by_cases hd : List.isEmpty d = true
    · rw [if_pos hd]
      exact ⟨(EM_DASH, ""), rfl⟩
    · rw [if_neg hd]
      rcases objGetD_metric_obj d (h d rfl) with ⟨mo, hmo⟩
      rw [hmo]
      exact ⟨_, rfl⟩

theorem numericScore_isOk (e : Option Entry)
    (h : ∀ d, e = some d → entryMetricOk d = true) :
    ∃ r, numericScore e = .ok r := by
  cases e with
  | none => exact ⟨none, rfl⟩
  | some d =>
    simp only [numericScore]
    by_cases hd : List.isEmpty d = true
    · rw [if_pos hd]
      exact ⟨none, rfl⟩
    · rw [if_neg hd]
      rcases objGetD_metric_obj d (h d rfl) with ⟨mo, hmo⟩
      rw [hmo]
      exact ⟨_, rfl⟩

theorem unitStr_isOk (c : Option Entry) (bs cs : Option ℚ) (bunit cunit : String)
    (h : ∀ d, c = some d → entryMetricOk d = true) :
    ∃ r, unitStr c bs cs bunit cunit = .ok r := by
  unfold unitStr
  split
  · split
    · next d =>
      rcases objGetD_metric_obj d (h d rfl) with ⟨mo, hmo⟩
      rw [hmo]
      show ∃ r, (match List.find? (fun p => p.1 == "scoreUnit") mo with
        | some p => Except.ok (pyStr p.2)
        | none => Except.ok (pyOr bunit cunit)) = Except.ok r
      cases List.find? (fun p => p.1 == "scoreUnit") mo
      · exact ⟨_, rfl⟩
      · exact ⟨_, rfl⟩
    · exact ⟨_, rfl⟩
  · exact ⟨_, rfl⟩

theorem dictGet_metricOk (dict : BDict) (hm : dictMetricsOk dict = true)
    (k : BKey) : ∀ d, dictGet dict k = some d → entryMetricOk d = true := by
  intro d hd
  unfold dictGet at hd
  cases hf : dict.find? (fun p => eqKey p.1 k) with
  | none => rw [hf] at hd; exact Option.noConfusion hd
  | some p =>
    rw [hf] at hd
    have hpd : p.2 = d := by simpa using hd
    have hmem := List.mem_of_find?_eq_some hf
    rw [← hpd]
    exact List.all_eq_true.mp hm p hmem

/-- Monadic bind on a successful `Except` computation. -/
theorem okBind {β γ : Type} (x : β) (f : β → Except Unit γ) :
    (Except.ok x >>= f) = f x := rfl

theorem renderRow_isOk (base cur : BDict) (hmb : dictMetricsOk base = true)

    (hmc : dictMetricsOk cur = true) (k : BKey) :
    ∃ s, renderRow base cur k = .ok s := by
  unfold renderRow
  rcases scoreAndUnit_isOk (dictGet base k) (dictGet_metricOk base hmb k) with ⟨bsu, h1⟩
  rcases scoreAndUnit_isOk (dictGet cur k) (dictGet_metricOk cur hmc k) with ⟨csu, h2⟩
  rcases numericScore_isOk (dictGet base k) (dictGet_metricOk base hmb k) with ⟨bs, h3⟩
  rcases numericScore_isOk (dictGet cur k) (dictGet_metricOk cur hmc k) with ⟨cs, h4⟩
  rcases unitStr_isOk (dictGet cur k) bs cs bsu.2 csu.2
    (dictGet_metricOk cur hmc k) with ⟨u, h5⟩
  rw [h1, okBind, h2, okBind, h3, okBind, h4, okBind, h5, okBind]
  exact ⟨_, rfl⟩

theorem renderRows_isOk (base cur : BDict) (hmb : dictMetricsOk base = true)
    (hmc : dictMetricsOk cur = true) :
    ∀ ks, ∃ rs, renderRows base cur ks = .ok rs := by
  intro ks
  induction ks with
  | nil => exact ⟨[], rfl⟩
  | cons k ks ih =>
    rcases renderRow_isOk base cur hmb hmc k with ⟨s, hs⟩
    rcases ih with ⟨rs, hrs⟩
    refine ⟨s :: rs, ?_⟩
    show (do
      let row ← renderRow base cur k
      let rest ← renderRows base cur ks
      pure (row :: rest)) = Except.ok (s :: rs)
    rw [hs, okBind, hrs, okBind]
    rfl

theorem compare_isOk (base cur : BDict) (t : String) (n : Option String)
    (ht : ∀ a ∈ unionKeys base cur, ∀ b ∈ unionKeys base cur,
      (cmpKey a b).isSome = true)
    (hmb : dictMetricsOk base = true) (hmc : dictMetricsOk cur = true) :
    ∃ md, compare_to_markdown base cur t n = .ok md := by
  unfold compare_to_markdown compareWithEnum
  rcases sortE_isOk (unionKeys base cur) ht with ⟨ks, hks⟩
  rcases renderRows_isOk base cur hmb hmc ks with ⟨rs, hrs⟩
  rw [hks, okBind, hrs, okBind]
  exact ⟨_, rfl⟩

/-- C9, counterexample: a loadable, *non-empty* baseline holding two
benchmarks whose parameter values have different runtime types makes the
driver abort with an uncaught `TypeError` from the sort — it neither
produces a report nor returns exit status 0. -/
theorem C9_counterexample :
    load (.parsed (Json.arr
      [Json.obj [("benchmark", Json.str "A"),
        ("params", Json.obj [("n", Json.int 1)])],
       Json.obj [("benchmark", Json.str "A"),
        ("params", Json.obj [("n", Json.str "1")])]])) =
      .ok [((Json.str "A", [("n", Json.int 1)]),
        [("benchmark", Json.str "A"), ("params", Json.obj [("n", Json.int 1)])]),
       ((Json.str "A", [("n", Json.str "1")]),
        [("benchmark", Json.str "A"), ("params", Json.obj [("n", Json.str "1")])])] ∧
    ([((Json.str "A", [("n", Json.int 1)]),
        [("benchmark", Json.str "A"), ("params", Json.obj [("n", Json.int 1)])]),
      ((Json.str "A", [("n", Json.str "1")]),
        [("benchmark", Json.str "A"),
         ("params", Json.obj [("n", Json.str "1")])])] : BDict).isEmpty = false ∧
    driverAfterLoad
      [((Json.str "A", [("n", Json.int 1)]),
        [("benchmark", Json.str "A"), ("params", Json.obj [("n", Json.int 1)])]),
       ((Json.str "A", [("n", Json.str "1")]),
        [("benchmark", Json.str "A"), ("params", Json.obj [("n", Json.str "1")])])]
      [] "T" none = .uncaught ∧
    MainOutcome.isExit0 (driverAfterLoad
      [((Json.str "A", [("n", Json.int 1)]),
        [("benchmark", Json.str "A"), ("params", Json.obj [("n", Json.int 1)])]),
       ((Json.str "A", [("n", Json.str "1")]),
        [("benchmark", Json.str "A"), ("params", Json.obj [("n", Json.str "1")])])]
      [] "T" none) = false := by
  exact ⟨rfl, rfl, rfl, rfl⟩

/-- C9, amended: the driver fails with exit status 1 (and no report) if and
only if both loaded mappings are empty; when at least one is non-empty and
the comparison itself cannot abort (all key pairs comparable, every
`primaryMetric` absent or mapping-shaped), it prints the report and returns
exit status 0. -/
theorem C9_driver_outcomes (base cur : BDict) (t : String) (n : Option String)
    (ht : ∀ a ∈ unionKeys base cur, ∀ b ∈ unionKeys base cur,
      (cmpKey a b).isSome = true)
    (hmb : dictMetricsOk base = true) (hmc : dictMetricsOk cur = true) :
    (driverAfterLoad base cur t n = .exit1 ↔
      (base.isEmpty = true ∧ cur.isEmpty = true)) ∧
    (¬(base.isEmpty = true ∧ cur.isEmpty = true) →
      ∃ md, compare_to_markdown base cur t n = .ok md ∧
        driverAfterLoad base cur t n = .exit0 md) := by
  constructor
  · unfold driverAfterLoad
    by_cases hb : base.isEmpty && cur.isEmpty
    · rw [if_pos hb]
      simp only [Bool.and_eq_true_iff] at hb
      exact ⟨fun _ => hb, fun _ => rfl⟩
    · rw [if_neg hb]
      constructor
      · intro hcmp
        cases hc : compare_to_markdown base cur t n <;> rw [hc] at hcmp <;>
          exact MainOutcome.noConfusion hcmp
      · intro hcontra
        exact absurd (Bool.and_eq_true_iff.mpr hcontra) hb
  · intro hne
    rcases compare_isOk base cur t n ht hmb hmc with ⟨md, hmd⟩
    refine ⟨md, hmd, ?_⟩
    unfold driverAfterLoad
    rw [if_neg (fun hcontra => hne (Bool.and_eq_true_iff.mp hcontra)), hmd]

/-- Witness for the amended C9 at `wBase`, `wCur` (non-empty inputs that
compare cleanly). -/
theorem C9_driver_outcomes_witness :
    ((∀ a ∈ unionKeys wBase wCur, ∀ b ∈ unionKeys wBase wCur,
        (cmpKey a b).isSome = true) ∧
     dictMetricsOk wBase = true ∧ dictMetricsOk wCur = true ∧
     ¬(wBase.isEmpty = true ∧ wCur.isEmpty = true)) ∧
    ((driverAfterLoad wBase wCur "T" none = .exit1 ↔
       (wBase.isEmpty = true ∧ wCur.isEmpty = true)) ∧
     ∃ md, compare_to_markdown wBase wCur "T" none = .ok md ∧
       driverAfterLoad wBase wCur "T" none = .exit0 md) := by
  have ht : ∀ a ∈ unionKeys wBase wCur, ∀ b ∈ unionKeys wBase wCur,
      (cmpKey a b).isSome = true := by decide
  have hmb : dictMetricsOk wBase = true := by decide
  have hmc : dictMetricsOk wCur = true := by decide
  have hne : ¬(wBase.isEmpty = true ∧ wCur.isEmpty = true) := by
    intro h
    exact Bool.noConfusion h.1
  have hmain := C9_driver_outcomes wBase wCur "T" none ht hmb hmc
  exact ⟨⟨ht, hmb, hmc, hne⟩, hmain.1, hmain.2 hne⟩

/-!
Loader invariants: every mapping `load` produces has hashable, pairwise
`==`-distinct keys — the hypotheses under which C1, C6 and C9 are stated.
-/

theorem dictInsert_keys_of_mem (d : BDict) (k : BKey) (v : Entry)
    (h : d.any (fun p => eqKey p.1 k) = true) :
    dictKeys (dictInsert d k v) = dictKeys d := by
  unfold dictInsert
  rw [if_pos h]
  unfold dictKeys
  rw [List.map_map]
  apply List.map_congr_left
  intro p _
  by_cases hp : eqKey p.1 k = true
  · simp [hp]
  · simp [hp]

theorem dictInsert_keys_of_not_mem (d : BDict) (k : BKey) (v : Entry)
    (h : d.any (fun p => eqKey p.1 k) = false) :
    dictKeys (dictInsert d k v) = dictKeys d ++ [k] := by
  unfold dictInsert
  rw [if_neg (by simp [h])]
  unfold dictKeys
  rw [List.map_append]
  rfl

theorem dictInsert_wf (d : BDict) (k : BKey) (v : Entry)
    (hk : keyHashable k = true)
    (hall : (dictKeys d).all keyHashable = true)
    (hd : KeysDistinct (dictKeys d)) :
    (dictKeys (dictInsert d k v)).all keyHashable = true ∧
      KeysDistinct (dictKeys (dictInsert d k v)) := by
  by_cases hmem : d.any (fun p => eqKey p.1 k) = true
  · rw [dictInsert_keys_of_mem d k v hmem]
    exact ⟨hall, hd⟩
  · rw [dictInsert_keys_of_not_mem d k v (by simpa using hmem)]
    constructor
    · rw [List.all_append]
      simp [hall, hk]
    · unfold KeysDistinct
      rw [List.pairwise_append]
      refine ⟨hd, by simp, ?_⟩
      intro a ha b hb
      rw [List.mem_singleton] at hb
      rcases List.mem_map.mp ha with ⟨p, hp, hpa⟩
      have hpk : eqKey p.1 k = false := by
        have hfalse : d.any (fun p => eqKey p.1 k) = false := by simpa using hmem
        exact Bool.eq_false_iff.mpr (List.any_eq_false.mp hfalse p hp)
      rw [hb, ← hpa]
      exact hpk

theorem buildDict_wf : ∀ (es : List Json) (d out : BDict),
    (dictKeys d).all keyHashable = true → KeysDistinct (dictKeys d) →
    buildDict es d = .ok out →
    (dictKeys out).all keyHashable = true ∧ KeysDistinct (dictKeys out) := by
  intro es
  induction es with
  | nil =>
    intro d out hall hd h
    have hout : d = out := LoadOutcome.ok.inj h
    rw [← hout]
    exact ⟨hall, hd⟩
  | cons j rest ih =>
    intro d out hall hd h
    cases j
    case obj e =>
      simp only [buildDict] at h
      by_cases hk : keyHashable
          (objGetD e "benchmark" (Json.str ""),
            sortParams (match objGetD e "params" Json.null with
              | Json.obj o => o
              | _ => [])) = true
      · rw [if_pos hk] at h
        have hwf := dictInsert_wf d _ e hk hall hd
        exact ih _ out hwf.1 hwf.2 h
      · rw [if_neg hk] at h
        exact LoadOutcome.noConfusion h
    all_goals exact ih d out hall hd h

/-- Every mapping the loader returns has hashable, pairwise-distinct keys:
the hypotheses of C1, C6 and C9 hold of every dict that reaches the
comparison. -/
theorem load_wf (f : FileInput) (d : BDict) (h : load f = .ok d) :
    (dictKeys d).all keyHashable = true ∧ KeysDistinct (dictKeys d) := by
  cases f with
  | absent =>
    have hout : ([] : BDict) = d := LoadOutcome.ok.inj h
    rw [← hout]
    exact ⟨rfl, List.Pairwise.nil⟩
  | unreadable => exact LoadOutcome.noConfusion h
  | malformed => exact LoadOutcome.noConfusion h
  | parsed j =>
    cases j
    case arr es => exact buildDict_wf es [] d rfl List.Pairwise.nil h
    all_goals
      have hout : ([] : BDict) = d := LoadOutcome.ok.inj h
    all_goals rw [← hout]
    all_goals exact ⟨rfl, List.Pairwise.nil⟩
